import Mathlib

/-!
Verification development for the py-invoices pluggable persistence layer.

This file gives a shallow embedding, in Lean, of the persistence layer of the
py-invoices repository and proves (or refutes) the frozen claims about it.
The embedded components are:

* `src/py_invoices/backends/files/storage.py` — the multi-format file
  document store (`FileStorage`): ID metadata, file discovery, save/load in
  JSON, Markdown-with-frontmatter and XML, `load_all`, `delete`;
* `src/py_invoices/backends/memory/client_repo.py` (and its sibling
  repositories, which all share the same shape) — the in-memory backend;
* `src/py_invoices/backends/memory/plugin.py` — the memory plugin lifecycle;
* `src/py_invoices/plugins/registry.py` — the process-wide plugin registry;
* `src/py_invoices/plugins/factory.py` — the repository factory.

Modelling conventions:

* Python `dict[str, ...]` values become association lists that preserve
  insertion order; assignment to an existing key replaces the value in place
  (as CPython dicts do), assignment to a fresh key appends.
* A directory is an ordered association list from file name to file content.
* File contents are modelled one level above raw bytes: a tagged value
  records what the text of the file parses as (a JSON document, a
  Markdown-frontmatter document, a well-formed XML document, or text that no
  structured loader accepts).  Each constructor documents exactly which
  Python-level text it stands for.
* Machine integers are `Int` (CPython integers are unbounded, so no modular
  arithmetic is needed).
* Raising an exception is modelled with `Except`; operations that mutate the
  directory before raising return the mutated directory alongside the
  outcome, matching the fact that CPython file mutations persist when an
  exception follows them.
* The store is generic over a pydantic model class.  We instantiate it with
  a representative entity model `ItemModel` mirroring the repository's own
  unit-test model (`tests/unit/backends/files/test_storage.py`) plus the
  integer `id` field every repository entity carries: integer, string,
  list-of-string, string-keyed mapping and optional-string fields, which
  exercise every branch of the serializers (including the XML list/None
  post-processing keyed on `model_fields`).
-/

namespace PyInvoices

/-! ## Decimal digits and Python string helpers

`str(i)` for a CPython int and `int(s)` for a decimal string are implemented
from first principles (fuel-based, hence reducible by `rfl`/`decide`), so
that the round-trip lemmas needed by the claims can be proved without
appealing to opaque library functions. -/

/-- The character for the decimal digit `d` (`0 ≤ d ≤ 9`). -/
def digitChar (d : Nat) : Char := Char.ofNat (48 + d)

/-- Digits of `n`, most significant first; `fuel` bounds the recursion and
any `fuel ≥ n` gives the exact digits. -/
def natDigitsAux : Nat → Nat → List Char
  | 0, _ => []
  | fuel + 1, n =>
    if n < 10 then [digitChar n] else natDigitsAux fuel (n / 10) ++ [digitChar (n % 10)]

/-- Decimal representation of a natural number, as `str` renders it. -/
def natRepr (n : Nat) : String := ⟨natDigitsAux (n + 1) n⟩

/-- Decimal representation of a CPython integer: `str(i)`. -/
def intRepr (i : Int) : String :=
  if i < 0 then "-" ++ natRepr i.natAbs else natRepr i.natAbs

/-- Numeric value of a digit character. -/
def digitVal (c : Char) : Nat := c.toNat - 48

/-- Value of a list of digit characters, most significant first, given a
leading accumulator (Horner's rule). -/
def digitsVal (acc : Nat) : List Char → Nat
  | [] => acc
  | c :: rest => digitsVal (acc * 10 + digitVal c) rest

/-- Python `str.isdigit()` restricted to ASCII: nonempty and all decimal
digits (the storage layer only meets ASCII file names). -/
def pyIsDigit (s : String) : Bool := !s.data.isEmpty && s.data.all Char.isDigit

/-- Python `int(s)` on a string that `pyIsDigit` accepts. -/
def pyIntOfDigits (s : String) : Int := Int.ofNat (digitsVal 0 s.data)

/-- CPython `int(s)` in the lax form pydantic uses to coerce a decimal
string (with optional leading minus sign) to an integer. -/
def parseDecIntAux : List Char → Option Int
  | [] => none
  | c :: rest =>
    if c = '-' then
      if !rest.isEmpty && rest.all Char.isDigit then some (-(Int.ofNat (digitsVal 0 rest)))
      else none
    else if (c :: rest).all Char.isDigit then some (Int.ofNat (digitsVal 0 (c :: rest)))
    else none

/-- The same coercion applied to a string. -/
def parseDecInt (s : String) : Option Int := parseDecIntAux s.data

/-- Split a file name into `(stem, suffix)` following `pathlib.PurePath`:
the suffix starts at the last dot provided that dot is neither the first nor
the last character; otherwise the suffix is empty. -/
def pySplitExt (name : String) : String × String :=
  if (name.data.reverse.takeWhile (· ≠ '.')).length = name.data.length then (name, "")
  else if (name.data.reverse.takeWhile (· ≠ '.')).length = 0 then (name, "")
  else if name.data.length - (name.data.reverse.takeWhile (· ≠ '.')).length - 1 = 0 then
    (name, "")
  else
    (⟨name.data.take (name.data.length - (name.data.reverse.takeWhile (· ≠ '.')).length - 1)⟩,
     ⟨name.data.drop (name.data.length - (name.data.reverse.takeWhile (· ≠ '.')).length - 1)⟩)

/-- `Path(name).stem`. -/
def pyStem (name : String) : String := (pySplitExt name).1

/-- `Path(name).suffix`. -/
def pySuffix (name : String) : String := (pySplitExt name).2

/-- Python `s.lstrip(".")`: remove every leading dot. -/
def lstripDots (s : String) : String := ⟨s.data.dropWhile (· = '.')⟩

/-- Python `a or b` for an optional string argument with a string default:
`None` and the empty string are falsy and select the default. -/
def pyOrDefault (a : Option String) (b : String) : String :=
  match a with
  | none => b
  | some s => if s = "" then b else s

/-! ## JSON documents

The result of `model_dump(mode="json")` and the contents of parsed JSON
files.  A mutual inductive (rather than `List`-nested constructors) keeps
every function over it structurally recursive and kernel-reducible. -/

mutual
/-- A JSON value: null, integer, string, array or object. -/
inductive JsonVal where
  | null
  | int (n : Int)
  | str (s : String)
  | arr (items : JsonArr)
  | obj (fields : JsonObj)
/-- A JSON array, as a cons-list of values. -/
inductive JsonArr where
  | nil
  | cons (hd : JsonVal) (tl : JsonArr)
/-- A JSON object: an insertion-ordered association list, as CPython dicts
preserve insertion order. -/
inductive JsonObj where
  | nil
  | cons (key : String) (val : JsonVal) (tl : JsonObj)
end

/-- Build a JSON array of strings. -/
def strArr : List String → JsonArr
  | [] => .nil
  | s :: rest => .cons (.str s) (strArr rest)

/-- Build a JSON object with string values from an association list. -/
def strObj : List (String × String) → JsonObj
  | [] => .nil
  | (k, v) :: rest => .cons k (.str v) (strObj rest)

/-- Append two JSON objects (used when a dump appends optional fields). -/
def JsonObj.append : JsonObj → JsonObj → JsonObj
  | .nil, o => o
  | .cons k v rest, o => .cons k v (rest.append o)

/-- First binding for `key` in a JSON object: `d.get(key)`. -/
def objGet : JsonObj → String → Option JsonVal
  | .nil, _ => none
  | .cons k v rest, key => if k = key then some v else objGet rest key

/-- Replace the (first) binding for `key` in place if present, else append:
`d[key] = v` on a CPython dict. -/
def objSet : JsonObj → String → JsonVal → JsonObj
  | .nil, key, v => .cons key v .nil
  | .cons k v0 rest, key, v =>
    if k = key then .cons k v rest else .cons k v0 (objSet rest key v)

/-- Append one item to a JSON array. -/
def JsonArr.snoc : JsonArr → JsonVal → JsonArr
  | .nil, v => .cons v .nil
  | .cons h t, v => .cons h (t.snoc v)

/-! ### The delimiter hazard of Markdown frontmatter

`_load_markdown` splits the file on the literal `"---"`.  The JSON dump
placed between the delimiters contains `"---"` exactly when some string
(key or value) in the dumped data contains it: `json.dump(..., indent=2)`
renders strings literally apart from backslash escapes (which introduce no
dashes), renders integers with at most one leading minus sign, and the
punctuation it inserts (`{ } [ ] , : "` and newlines) contains no dash, so
three consecutive dashes cannot arise otherwise or span two tokens. -/

/-- Whether `pat` occurs at the head of `text`. -/
def startsWithChars : List Char → List Char → Bool
  | [], _ => true
  | _ :: _, [] => false
  | p :: ps, c :: cs => p = c && startsWithChars ps cs

/-- Whether `pat` occurs anywhere in `text`. -/
def containsSeq (pat : List Char) : List Char → Bool
  | [] => pat.isEmpty
  | c :: rest => startsWithChars pat (c :: rest) || containsSeq pat rest

/-- Whether a string contains `"---"`. -/
def strHasTripleDash (s : String) : Bool := containsSeq ['-', '-', '-'] s.data

mutual
/-- Whether the `indent=2` JSON rendering of a value contains `"---"`. -/
def jsonHasTripleDash : JsonVal → Bool
  | .null => false
  | .int _ => false
  | .str s => strHasTripleDash s
  | .arr items => arrHasTripleDash items
  | .obj fields => objHasTripleDash fields
/-- Array case of `jsonHasTripleDash`. -/
def arrHasTripleDash : JsonArr → Bool
  | .nil => false
  | .cons v rest => jsonHasTripleDash v || arrHasTripleDash rest
/-- Object case of `jsonHasTripleDash` (keys are rendered too). -/
def objHasTripleDash : JsonObj → Bool
  | .nil => false
  | .cons k v rest => strHasTripleDash k || jsonHasTripleDash v || objHasTripleDash rest
end

/-! ## The representative entity model

Mirrors `ItemModel` of `tests/unit/backends/files/test_storage.py` (name,
list, mapping and optional fields) extended with the integer `id` that every
repository entity (`Client`, `Invoice`, ...) carries and that
`load_all`/`get_all` sort by. -/

/-- A pydantic entity: integer id, scalar, sequence, mapping and optional
fields. -/
structure ItemModel where
  id : Int
  name : String
  tags : List String
  meta : List (String × String)
  description : Option String
deriving Repr, DecidableEq, Inhabited

/-- The creation payload (`ItemModel` minus the storage-assigned `id`),
playing the role of `ClientCreate` etc. -/
structure ItemCreate where
  name : String
  tags : List String
  meta : List (String × String)
  description : Option String
deriving Repr, DecidableEq, Inhabited

/-- `Model(id=i, **data.model_dump())`. -/
def ItemCreate.withId (d : ItemCreate) (i : Int) : ItemModel :=
  { id := i, name := d.name, tags := d.tags, meta := d.meta, description := d.description }

/-- `entity.model_dump(mode="json", exclude_none=...)`: fields in
declaration order; with `exclude_none` a `None` field is omitted, otherwise
it is dumped as JSON null. -/
def ItemModel.modelDump (e : ItemModel) (excludeNone : Bool) : JsonVal :=
  .obj (JsonObj.append
    (.cons "id" (.int e.id) (.cons "name" (.str e.name)
      (.cons "tags" (.arr (strArr e.tags)) (.cons "meta" (.obj (strObj e.meta)) .nil))))
    (match e.description with
     | some s => .cons "description" (.str s) .nil
     | none => if excludeNone then .nil else .cons "description" .null .nil))

/-- Lax pydantic coercion to `str`: only a JSON string validates. -/
def asStr : JsonVal → Option String
  | .str s => some s
  | _ => none

/-- Lax pydantic coercion to `int`: an integer, or a decimal string. -/
def asIntLax : JsonVal → Option Int
  | .int n => some n
  | .str s => parseDecInt s
  | _ => none

/-- Lax pydantic coercion to `list[str]`. -/
def asStrList : JsonVal → Option (List String)
  | .arr items => go items
  | _ => none
where
  /-- Element-wise coercion of the array. -/
  go : JsonArr → Option (List String)
  | .nil => some []
  | .cons v rest => do pure ((← asStr v) :: (← go rest))

/-- Lax pydantic coercion to `dict[str, str]`. -/
def asStrPairs : JsonVal → Option (List (String × String))
  | .obj fields => go fields
  | _ => none
where
  /-- Field-wise coercion of the object. -/
  go : JsonObj → Option (List (String × String))
  | .nil => some []
  | .cons k v rest => do pure ((k, ← asStr v) :: (← go rest))

/-- `ItemModel.model_validate(data)`: pydantic validation of parsed data
with lax coercions; extra keys are ignored, a missing `tags`/`meta`/
`description` takes its declared default, and a failure anywhere rejects
the document (pydantic raises `ValidationError`). -/
def ItemModel.modelValidate (v : JsonVal) : Option ItemModel :=
  match v with
  | .obj fields => do
    let id ← (objGet fields "id").bind asIntLax
    let name ← (objGet fields "name").bind asStr
    let tags ← match objGet fields "tags" with
      | none => some []
      | some t => asStrList t
    let meta ← match objGet fields "meta" with
      | none => some []
      | some m => asStrPairs m
    let description ← match objGet fields "description" with
      | none => some none
      | some .null => some none
      | some (.str s) => some (some s)
      | some _ => none
    pure { id, name, tags, meta, description }
  | _ => none

/-! ## XML documents

`_save_xml` builds an `xml.etree.ElementTree` tree and writes it pretty
printed; `_load_xml` parses the file back into a tree.  We model the file at
tree level: a written tree reparses to itself, with one exception recorded
explicitly below (`normText`): an element whose text was set to the empty
string serializes as a self-closing tag and reparses with no text node.
Elements written by the store carry either a text or children, never both;
the whitespace text nodes introduced by pretty printing around child
elements are ignored by the reader (`xml_to_dict` only consults `.text` on
childless elements), so they are not modelled. -/

mutual
/-- An XML element: tag, optional text, child elements. -/
inductive XmlTree where
  | elem (tag : String) (text : Option String) (children : XmlForest)
/-- A list of sibling XML elements. -/
inductive XmlForest where
  | nil
  | cons (hd : XmlTree) (tl : XmlForest)
end

/-- The tag of an element. -/
def XmlTree.tag : XmlTree → String
  | .elem t _ _ => t

/-- Append two forests. -/
def XmlForest.append : XmlForest → XmlForest → XmlForest
  | .nil, f => f
  | .cons h t, f => .cons h (t.append f)

/-- Python `str(value)` for the scalar values that can appear in a dump
(`None`, integers, strings).  The container branches are unreachable for
data produced by `model_dump` on `ItemModel` — `dict` and `list` values are
intercepted before `str` is applied — and are given a placeholder. -/
def pyStr : JsonVal → String
  | .null => "None"
  | .int n => intRepr n
  | .str s => s
  | .arr _ => "[...]"
  | .obj _ => "[...]"

/-- Writing `child.text = s` and reparsing the document: an empty string
leaves a childless element with no text (`<k />` reparses with
`text = None`), any other string is preserved. -/
def normText (s : String) : Option String := if s = "" then none else some s

mutual
/-- `dict_to_xml(parent, d)`: one child element per key/value; a dict value
recurses, a list value becomes repeated sibling elements with the same tag,
a scalar becomes a childless element with `str(value)` as text. -/
def dictToXml : JsonObj → XmlForest
  | .nil => .nil
  | .cons k v rest => XmlForest.append (keyNodes k v) (dictToXml rest)
/-- The elements produced for one key/value pair. -/
def keyNodes (k : String) : JsonVal → XmlForest
  | .obj fs => .cons (.elem k none (dictToXml fs)) .nil
  | .arr items => listNodes k items
  | .null => .cons (.elem k (normText (pyStr .null)) .nil) .nil
  | .int n => .cons (.elem k (normText (pyStr (.int n))) .nil) .nil
  | .str s => .cons (.elem k (normText (pyStr (.str s))) .nil) .nil
/-- Repeated sibling elements for a list value, one per item. -/
def listNodes (k : String) : JsonArr → XmlForest
  | .nil => .nil
  | .cons (.obj fs) rest => .cons (.elem k none (dictToXml fs)) (listNodes k rest)
  | .cons (.arr a) rest => .cons (.elem k (normText (pyStr (.arr a))) .nil) (listNodes k rest)
  | .cons (.null) rest => .cons (.elem k (normText (pyStr .null)) .nil) (listNodes k rest)
  | .cons (.int n) rest => .cons (.elem k (normText (pyStr (.int n))) .nil) (listNodes k rest)
  | .cons (.str s) rest => .cons (.elem k (normText (pyStr (.str s))) .nil) (listNodes k rest)
end

/-- The document `_save_xml` writes: a root element named after the model
class with `dict_to_xml` children.  `model_dump` always yields an object, so
the non-object branch is unreachable. -/
def buildXmlDoc (data : JsonVal) : XmlTree :=
  match data with
  | .obj fs => .elem "ItemModel" none (dictToXml fs)
  | _ => .elem "ItemModel" none .nil

/-- One step of `xml_to_dict`'s repeated-tag handling: a fresh tag is
appended; a repeated tag turns the existing value into a list (if it is not
one already) and appends the new value to it. -/
def insertTag (res : JsonObj) (tag : String) (v : JsonVal) : JsonObj :=
  match objGet res tag with
  | none => JsonObj.append res (.cons tag v .nil)
  | some (.arr l) => objSet res tag (.arr (l.snoc v))
  | some old => objSet res tag (.arr (.cons old (.cons v .nil)))

mutual
/-- `xml_to_dict(element)` folded over the children with an accumulator. -/
def xmlToDictAux (acc : JsonObj) : XmlForest → JsonObj
  | .nil => acc
  | .cons c rest => xmlToDictAux (insertTag acc c.tag (childValue c)) rest
/-- The parsed value of one child: recurse when it has child elements, else
its text (absent text parses as `None`). -/
def childValue : XmlTree → JsonVal
  | .elem _ text .nil => (match text with | none => .null | some s => .str s)
  | .elem _ _ (.cons c rest) => .obj (xmlToDictAux .nil (.cons c rest))
end

/-- `xml_to_dict` applied to an element's children. -/
def xmlToDict (f : XmlForest) : JsonObj := xmlToDictAux .nil f

/-- The `model_fields` post-processing of `_load_xml`: a field annotated
`list[...]` that parsed as a lone value is wrapped into a one-element list,
and a field annotated `dict[...]` that parsed as `None` (empty element)
becomes an empty mapping.  For `ItemModel` the `list` field is `tags` and
the `dict` field is `meta`; `id`, `name` and `description` have no
`list`/`dict` origin and are untouched. -/
def postProcessXmlFields (d : JsonObj) : JsonObj :=
  let d1 := match objGet d "tags" with
    | some (.arr _) => d
    | some v => objSet d "tags" (.arr (.cons v .nil))
    | none => d
  match objGet d1 "meta" with
  | some .null => objSet d1 "meta" (.obj .nil)
  | _ => d1

/-- `_load_xml`: parse the document, convert the root's children to a dict,
post-process list/dict fields. -/
def loadXmlDoc : XmlTree → JsonVal
  | .elem _ _ children => .obj (postProcessXmlFields (xmlToDict children))

/-! ### What `_save_xml` actually writes

`_save_xml` does not write the built tree directly: it runs
`minidom.parseString(tostring(root)).toprettyxml(indent="  ")`.
`ET.tostring` serializes any tag string and any text (escaping only
`&`, `<`, `>`), so it is the expat re-parse inside `minidom.parseString`
that decides the outcome: it raises `ExpatError` — before anything is
written — when a tag is not a well-formed XML name (for example a
mapping key containing a space) or a text holds a control character
other than tab, newline or carriage return; and on success it applies
end-of-line normalization, turning `\r\n` and lone `\r` in text into
`\n`.  The stored document therefore is the *re-parsed* tree: the built
tree with its text normalized. -/

/-- A text character expat accepts: tab, newline, carriage return, or
anything from the space character up. -/
def xmlTextCharOk (c : Char) : Bool :=
  c = Char.ofNat 9 || c = Char.ofNat 10 || c = Char.ofNat 13 || decide (32 ≤ c.toNat)

/-- A text character expat accepts *and leaves unchanged*: as above minus
the carriage return, which end-of-line normalization rewrites. -/
def xmlCharOk (c : Char) : Bool :=
  c = Char.ofNat 9 || c = Char.ofNat 10 || decide (32 ≤ c.toNat)

/-- Every character of the string survives the write/re-parse unchanged. -/
def strXmlOk (s : String) : Bool := s.data.all xmlCharOk

/-- A well-formed XML element name as expat checks it: a letter or
underscore first, then letters, digits, `_`, `-` or `.`. -/
def xmlNameOk (s : String) : Bool :=
  match s.data with
  | [] => false
  | c :: rest =>
    (c.isAlpha || c = '_') &&
      rest.all (fun d => d.isAlphanum || d = '_' || d = '-' || d = '.')

/-- expat's end-of-line normalization over a character list: `\r\n` and a
lone `\r` both become `\n` (the flag records whether the previous character
was a `\r`, whose following `\n`, if any, is dropped). -/
def normCRGo : Bool → List Char → List Char
  | _, [] => []
  | prevCR, c :: rest =>
    if c = Char.ofNat 13 then Char.ofNat 10 :: normCRGo true rest
    else if c = Char.ofNat 10 then
      if prevCR then normCRGo false rest else c :: normCRGo false rest
    else c :: normCRGo false rest

/-- expat's end-of-line normalization of one text. -/
def normalizeCR (s : String) : String := ⟨normCRGo false s.data⟩

mutual
/-- Whether `minidom.parseString` accepts the serialized tree: every tag is
a well-formed XML name and every text holds only characters expat
tolerates. -/
def XmlTree.serializable : XmlTree → Bool
  | .elem tag text children =>
    xmlNameOk tag &&
      (match text with | none => true | some t => t.data.all xmlTextCharOk) &&
      children.serializableAll
/-- `serializable` over every element of a forest. -/
def XmlForest.serializableAll : XmlForest → Bool
  | .nil => true
  | .cons t rest => t.serializable && rest.serializableAll
end

mutual
/-- The tree the written document re-parses to: every text with expat's
end-of-line normalization applied. -/
def XmlTree.normCR : XmlTree → XmlTree
  | .elem tag text children => .elem tag (text.map normalizeCR) children.normCRAll
/-- `normCR` over a forest. -/
def XmlForest.normCRAll : XmlForest → XmlForest
  | .nil => .nil
  | .cons t rest => .cons t.normCR rest.normCRAll
end

/-! ## Files and directories -/

/-- The exceptions the storage layer can raise. -/
inductive PyErr where
  | jsonDecodeError
  | valueError (msg : String)
  | xmlParseError
  | expatError
  | attributeError
  | typeErrorDeferred
  | validationError
  | runtimeError (msg : String)
deriving Repr, DecidableEq

/-- What the text of a stored file parses as.

* `jsonData v` — text that `json.load` parses as `v` (as written by
  `json.dump(v, f, indent=2)`);
* `mdData v` — the text `"---\n" + json.dumps(v, indent=2) + "\n---\n"`
  written by `_save_markdown`;
* `xmlData x` — a well-formed XML document with root element `x`; for a
  file written by `_save_xml` this is the tree `minidom.parseString`
  re-parsed (text already carries expat's end-of-line normalization, so
  `ET.parse` on load yields `x` again);
* `corruptText` — text that every structured loader rejects. -/
inductive FileData where
  | jsonData (v : JsonVal)
  | mdData (v : JsonVal)
  | xmlData (x : XmlTree)
  | corruptText

/-- A directory: file name to content, in creation order. -/
abbrev Dir := List (String × FileData)

/-- Content of the named file, if present. -/
def dirLookup : Dir → String → Option FileData
  | [], _ => none
  | (n, fd) :: rest, name => if n = name then some fd else dirLookup rest name

/-- `open(path, "w")`: overwrite the file in place, or create it. -/
def dirWrite : Dir → String → FileData → Dir
  | [], name, fd => [(name, fd)]
  | (n, fd0) :: rest, name, fd =>
    if n = name then (n, fd) :: rest else (n, fd0) :: dirWrite rest name fd

/-- `path.unlink()`: remove the named file. -/
def dirRemove (dir : Dir) (name : String) : Dir :=
  dir.filter (fun nf => nf.1 ≠ name)

/-! ## FileStorage

The file document store of `backends/files/storage.py`, specialized to the
representative model.  The in-memory state is the `_next_id` counter and
the configured default format; the directory is threaded explicitly. -/

/-- In-memory state of a `FileStorage` instance. -/
structure FileStorage where
  defaultFormat : String
  nextId : Int
deriving Repr, DecidableEq

/-- The sidecar metadata file name. -/
def metaFileName : String := "_meta.json"

/-- `_load_meta` composed with the `_next_id = 1` initialisation of
`__init__`: a missing file, or one whose text fails JSON decoding
(`except json.JSONDecodeError: pass`), leaves the counter at 1; valid JSON
lacking `next_id` defaults to 1 (`data.get("next_id", 1)`); valid JSON that
is not an object raises `AttributeError` (uncaught).  A JSON object whose
`next_id` is not an integer would be stored as-is by Python and only crash
at the first increment; the store never writes such a file and no claim
exercises the case, so it is surfaced here as that deferred failure. -/
def loadMeta (dir : Dir) : Except PyErr Int :=
  match dirLookup dir metaFileName with
  | none => .ok 1
  | some (.jsonData (.obj fields)) =>
    match objGet fields "next_id" with
    | some (.int n) => .ok n
    | some _ => .error .typeErrorDeferred
    | none => .ok 1
  | some (.jsonData _) => .error .attributeError
  | some _ => .ok 1

/-- `_save_meta`: write the counter to the metadata file. -/
def saveMeta (st : FileStorage) (dir : Dir) : Dir :=
  dirWrite dir metaFileName (.jsonData (.obj (.cons "next_id" (.int st.nextId) .nil)))

/-- Constructing a `FileStorage` over an existing directory (`__init__`):
set `_next_id = 1` then `_load_meta`. -/
def FileStorage.construct (defaultFormat : String) (dir : Dir) : Except PyErr FileStorage :=
  (loadMeta dir).map (fun n => { defaultFormat := defaultFormat, nextId := n })

/-- `get_next_id`: return the current counter, increment, persist the
incremented counter to the metadata file before returning. -/
def FileStorage.getNextId (st : FileStorage) (dir : Dir) : Int × FileStorage × Dir :=
  let st1 : FileStorage := { st with nextId := st.nextId + 1 }
  (st.nextId, st1, saveMeta st1 dir)

/-- The file name `f"{entity_id}.{fmt}"`. -/
def entityFileName (i : Int) (fmt : String) : String := intRepr i ++ "." ++ fmt

/-- The extensions `_find_entity_file` probes, in order. -/
def supportedExts : List String := ["json", "xml", "md"]

/-- `_find_entity_file`: the first existing exact file `{id}.{ext}` for
`ext` in `json`, `xml`, `md`; no other file name is consulted. -/
def findEntityFile (dir : Dir) (i : Int) : Option (String × FileData) :=
  go supportedExts
where
  /-- Probe the extensions in order. -/
  go : List String → Option (String × FileData)
  | [] => none
  | ext :: rest =>
    match dirLookup dir (entityFileName i ext) with
    | some fd => some (entityFileName i ext, fd)
    | none => go rest

/-- Reading a `.json` entity file: `json.load`. -/
def loadJsonFile : FileData → Except PyErr JsonVal
  | .jsonData v => .ok v
  | _ => .error .jsonDecodeError

/-- `_load_markdown`: split the text on `"---"` and `json.loads` the
frontmatter.  On a file written by `_save_markdown` this recovers the
dumped value unless the dump itself contains `"---"`, in which case the
frontmatter slice is a strict prefix of the JSON text, `json.loads` fails,
and the `ValueError` is raised; any other text also raises `ValueError`. -/
def loadMarkdownFile (path : String) : FileData → Except PyErr JsonVal
  | .mdData v =>
    if jsonHasTripleDash v then .error (.valueError ("Invalid markdown format in " ++ path))
    else .ok v
  | _ => .error (.valueError ("Invalid markdown format in " ++ path))

/-- Reading an `.xml` entity file: `ET.parse` then `_load_xml`. -/
def loadXmlFile : FileData → Except PyErr JsonVal
  | .xmlData x => .ok (loadXmlDoc x)
  | _ => .error .xmlParseError

/-- The outcome of pydantic validation: a failure raises
(`ValidationError`). -/
def validatedResult : Option ItemModel → Except PyErr (Option ItemModel)
  | some e => .ok (some e)
  | none => .error .validationError

/-- `self.model_class.model_validate(data)` applied to a loader outcome; a
loader error propagates. -/
def validateLoaded : Except PyErr JsonVal → Except PyErr (Option ItemModel)
  | .error err => .error err
  | .ok v => validatedResult (ItemModel.modelValidate v)

/-- The format dispatch of `FileStorage.load` on a found file: strip the
path's suffix of its dot and parse accordingly; an unrecognized extension
cannot be produced by `_find_entity_file` and returns `None` in the
source. -/
def loadFound (path : String) (fd : FileData) : Except PyErr (Option ItemModel) :=
  match lstripDots (pySuffix path) with
  | "json" => validateLoaded (loadJsonFile fd)
  | "md" => validateLoaded (loadMarkdownFile path fd)
  | "xml" => validateLoaded (loadXmlFile fd)
  | _ => .ok none

/-- `FileStorage.load`: find the entity file, dispatch on its extension,
validate.  No file found returns `None`. -/
def FileStorage.load (dir : Dir) (i : Int) : Except PyErr (Option ItemModel) :=
  match findEntityFile dir i with
  | none => .ok none
  | some (path, fd) => loadFound path fd

/-- Outcome of `FileStorage.save`: the returned path or raised error, and
the directory after the call (the unlink of a differently-formatted
existing file persists even when the format dispatch then raises). -/
structure SaveOutcome where
  result : Except PyErr String
  dir : Dir

/-- The delete step of `save`: if `_find_entity_file` locates a file for
the ID whose extension differs from the resolved format, unlink it. -/
def saveDir1 (dir : Dir) (i : Int) (fmt : String) : Dir :=
  match findEntityFile dir i with
  | some (nm, _) => if lstripDots (pySuffix nm) ≠ fmt then dirRemove dir nm else dir
  | none => dir

/-- The body of `save` after the format has been resolved: delete a
differently-formatted existing file, dump with `exclude_none` only for XML
(the dump expression `entity.model_dump(mode="json", exclude_none=(fmt ==
"xml"))` is inlined into each branch), and write `{id}.{fmt}`; an
unsupported format raises `ValueError` after the delete already happened.
The XML branch mirrors `_save_xml`: `minidom.parseString(tostring(root))`
either raises `ExpatError` — after the delete, with nothing written — when
the built tree does not serialize to well-formed XML, or succeeds, in which
case the written document is the re-parsed tree with expat's end-of-line
normalization applied to its text. -/
def saveResolved (dir : Dir) (e : ItemModel) (i : Int) (fmt : String) : SaveOutcome :=
  if fmt = "json" then
    { result := .ok (entityFileName i fmt),
      dir := dirWrite (saveDir1 dir i fmt) (entityFileName i fmt)
        (.jsonData (e.modelDump (fmt = "xml"))) }
  else if fmt = "md" then
    { result := .ok (entityFileName i fmt),
      dir := dirWrite (saveDir1 dir i fmt) (entityFileName i fmt)
        (.mdData (e.modelDump (fmt = "xml"))) }
  else if fmt = "xml" then
    if (buildXmlDoc (e.modelDump (fmt = "xml"))).serializable then
      { result := .ok (entityFileName i fmt),
        dir := dirWrite (saveDir1 dir i fmt) (entityFileName i fmt)
          (.xmlData ((buildXmlDoc (e.modelDump (fmt = "xml"))).normCR)) }
    else
      { result := .error .expatError, dir := saveDir1 dir i fmt }
  else
    { result := .error (.valueError ("Unsupported format: " ++ fmt)),
      dir := saveDir1 dir i fmt }

/-- `FileStorage.save(entity, entity_id, fmt)`: resolve the format
(`fmt or self.default_format`) and run the resolved body. -/
def FileStorage.save (st : FileStorage) (dir : Dir) (e : ItemModel) (i : Int)
    (fmtArg : Option String) : SaveOutcome :=
  saveResolved dir e i (pyOrDefault fmtArg st.defaultFormat)

/-- `FileStorage.delete`: unlink the found entity file, reporting whether
one existed. -/
def FileStorage.delete (dir : Dir) (i : Int) : Bool × Dir :=
  match findEntityFile dir i with
  | some (nm, _) => (true, dirRemove dir nm)
  | none => (false, dir)

/-- Python `name.startswith("_")`. -/
def startsWithUnderscore (name : String) : Bool :=
  match name.data with
  | c :: _ => c = '_'
  | [] => false

/-- Stable insertion of an entity into a list sorted by ascending `id`
(before the first strictly larger or equal-id element keeps the Python
`list.sort` stable order when folded from the right). -/
def insertById (e : ItemModel) : List ItemModel → List ItemModel
  | [] => [e]
  | x :: xs => if e.id ≤ x.id then e :: x :: xs else x :: insertById e xs

/-- `entities.sort(key=lambda x: getattr(x, "id", 0))`: stable sort by
ascending id (every `ItemModel` has an `id`, so the `getattr` default is
never taken). -/
def sortById (l : List ItemModel) : List ItemModel := l.foldr insertById []

/-- The collection loop of `load_all`: iterate the directory, skip
underscore-prefixed names and names whose stem is not all digits, load each
remaining file by the integer value of its stem, and silently skip any file
whose load raises (`except Exception: continue`). -/
def loadAllEntities (dir : Dir) : List ItemModel := go dir
where
  /-- Iteration over the directory listing. -/
  go : List (String × FileData) → List ItemModel
  | [] => []
  | (nm, _) :: rest =>
    if startsWithUnderscore nm then go rest
    else if pyIsDigit (pyStem nm) then
      match FileStorage.load dir (pyIntOfDigits (pyStem nm)) with
      | .ok (some e) => e :: go rest
      | .ok none => go rest
      | .error _ => go rest
    else go rest

/-- `FileStorage.load_all`: collect the loadable entities, sorted by
ascending id. -/
def FileStorage.loadAll (dir : Dir) : List ItemModel := sortById (loadAllEntities dir)

/-! ## The file-backend repository (`backends/files/client_repo.py`) -/

/-- `get_all(skip, limit)`: `self.storage.load_all()[skip : skip + limit]`
(`skip` and `limit` are used as non-negative pagination parameters). -/
def FileRepo.getAll (dir : Dir) (skip limit : Nat) : List ItemModel :=
  ((FileStorage.loadAll dir).drop skip).take limit

/-- `create(data)`: allocate an ID, build the entity with it, save it (in
the store's default format); the saved entity is returned.  The `save`
error, if any, propagates. -/
def FileRepo.create (st : FileStorage) (dir : Dir) (d : ItemCreate) :
    Except PyErr ItemModel × FileStorage × Dir :=
  let idStDir := FileStorage.getNextId st dir
  let e := d.withId idStDir.1
  let out := FileStorage.save idStDir.2.1 idStDir.2.2 e idStDir.1 none
  (out.result.map (fun _ => e), idStDir.2.1, out.dir)

/-! ## The in-memory backend (`backends/memory/client_repo.py` and
siblings, which all share the same `_storage : dict[int, T]` /
`_next_id = 1` shape) -/

/-- State of one in-memory repository. -/
structure MemoryRepo where
  storage : List (Int × ItemModel)
  nextId : Int
deriving Repr, DecidableEq

/-- A fresh repository (`__init__`). -/
def MemoryRepo.fresh : MemoryRepo := { storage := [], nextId := 1 }

/-- `d[k] = v` on `dict[int, T]`: replace in place, or append. -/
def dictSet (l : List (Int × ItemModel)) (k : Int) (v : ItemModel) : List (Int × ItemModel) :=
  match l with
  | [] => [(k, v)]
  | (k0, v0) :: rest => if k0 = k then (k0, v) :: rest else (k0, v0) :: dictSet rest k v

/-- `d.get(k)`. -/
def dictGet (l : List (Int × ItemModel)) (k : Int) : Option ItemModel :=
  match l with
  | [] => none
  | (k0, v0) :: rest => if k0 = k then some v0 else dictGet rest k

/-- `create(data)`: build the entity with the current `_next_id`, store it
under that key, increment the counter. -/
def MemoryRepo.create (r : MemoryRepo) (d : ItemCreate) : ItemModel × MemoryRepo :=
  let e := d.withId r.nextId
  (e, { storage := dictSet r.storage r.nextId e, nextId := r.nextId + 1 })

/-- `get_by_id`. -/
def MemoryRepo.getById (r : MemoryRepo) (i : Int) : Option ItemModel :=
  dictGet r.storage i

/-- `get_all(skip, limit)`: `list(self._storage.values())[skip : skip + limit]`. -/
def MemoryRepo.getAll (r : MemoryRepo) (skip limit : Nat) : List ItemModel :=
  ((r.storage.map Prod.snd).drop skip).take limit

/-- `update(entity)`: raise if the id is absent, else replace the stored
value in place. -/
def MemoryRepo.update (r : MemoryRepo) (e : ItemModel) : Except PyErr MemoryRepo :=
  if (dictGet r.storage e.id).isSome then .ok { r with storage := dictSet r.storage e.id e }
  else .error (.valueError ("Client " ++ intRepr e.id ++ " not found"))

/-- `delete(id)`: remove the key if present, reporting whether it was. -/
def MemoryRepo.delete (r : MemoryRepo) (i : Int) : Bool × MemoryRepo :=
  if (dictGet r.storage i).isSome then
    (true, { r with storage := r.storage.filter (fun kv => kv.1 ≠ i) })
  else (false, r)

/-- An API call against one memory repository (used to characterize the
states reachable through the public interface). -/
inductive MemOp where
  | create (d : ItemCreate)
  | update (e : ItemModel)
  | delete (i : Int)

/-- Apply one call (a failed `update` raises and leaves the state as it
was). -/
def MemoryRepo.applyOp (r : MemoryRepo) : MemOp → MemoryRepo
  | .create d => (r.create d).2
  | .update e => match r.update e with | .ok r1 => r1 | .error _ => r
  | .delete i => (r.delete i).2

/-- Run a sequence of calls from a given state. -/
def MemoryRepo.runOps (r : MemoryRepo) (ops : List MemOp) : MemoryRepo :=
  ops.foldl MemoryRepo.applyOp r

/-! ## The memory plugin (`backends/memory/plugin.py`) -/

/-- State of one `MemoryPlugin` instance: seven repository slots, all
`None` until the plugin is initialized.  The audit repository stores a raw
log list (`_logs`) rather than keyed entities. -/
structure MemoryPlugin where
  invoiceRepo : Option MemoryRepo
  clientRepo : Option MemoryRepo
  paymentRepo : Option MemoryRepo
  companyRepo : Option MemoryRepo
  productRepo : Option MemoryRepo
  paymentNoteRepo : Option MemoryRepo
  auditLogs : Option (List JsonVal)

/-- A newly constructed plugin (`__init__`): every slot is `None`. -/
def MemoryPlugin.new : MemoryPlugin :=
  { invoiceRepo := none, clientRepo := none, paymentRepo := none, companyRepo := none,
    productRepo := none, paymentNoteRepo := none, auditLogs := none }

/-- The `initialize(**config)` method: create fresh repository instances in
every slot.  (The name `initialize` itself is reserved in Lean.) -/
def MemoryPlugin.initRepos (_p : MemoryPlugin) : MemoryPlugin :=
  { invoiceRepo := some .fresh, clientRepo := some .fresh, paymentRepo := some .fresh,
    companyRepo := some .fresh, productRepo := some .fresh, paymentNoteRepo := some .fresh,
    auditLogs := some [] }

/-- `create_client_repository`: raise unless initialized, else hand out the
shared instance (its state lives in the plugin record, so every repository
obtained this way aliases the slot). -/
def MemoryPlugin.createClientRepository (p : MemoryPlugin) : Except PyErr MemoryRepo :=
  match p.clientRepo with
  | some r => .ok r
  | none => .error (.runtimeError "Plugin not initialized. Call initialize() first.")

/-- `self._storage.clear()`: drop every stored entity; `_next_id` is
untouched. -/
def MemoryRepo.clearStorage (r : MemoryRepo) : MemoryRepo := { r with storage := [] }

/-- `cleanup()`: for each slot that holds a repository, clear its storage
(`if self._x_repo: self._x_repo._storage.clear()`); empty slots are left
alone, and the audit log list is cleared. -/
def MemoryPlugin.cleanup (p : MemoryPlugin) : MemoryPlugin :=
  { invoiceRepo := p.invoiceRepo.map MemoryRepo.clearStorage,
    clientRepo := p.clientRepo.map MemoryRepo.clearStorage,
    paymentRepo := p.paymentRepo.map MemoryRepo.clearStorage,
    companyRepo := p.companyRepo.map MemoryRepo.clearStorage,
    productRepo := p.productRepo.map MemoryRepo.clearStorage,
    paymentNoteRepo := p.paymentNoteRepo.map MemoryRepo.clearStorage,
    auditLogs := p.auditLogs.map (fun _ => []) }

/-! ## Plugin registry (`plugins/registry.py`) -/

/-- A single-quote character, for reproducing the source's messages. -/
def sq : String := ⟨[Char.ofNat 39]⟩

/-- A plugin class: its Python class name (`__name__`) and the `name`
property a temporary instance reports when the class is registered. -/
structure PluginClass where
  clsName : String
  pname : String
deriving Repr, DecidableEq

/-- The registry table: plugin name to plugin class, in registration
order. -/
abbrev Registry := List (String × PluginClass)

/-- `PluginRegistry.get(name)`. -/
def registryGet : Registry → String → Option PluginClass
  | [], _ => none
  | (n, c) :: rest, name => if n = name then some c else registryGet rest name

/-- `PluginRegistry.list_plugins()`. -/
def registryList (reg : Registry) : List String := reg.map Prod.fst

/-- `PluginRegistry.register(plugin_class)`: instantiate the class to read
its name; if the name is already registered raise `ValueError` (returned
here as the message, with the table unchanged), else add the binding. -/
def registerPlugin (reg : Registry) (c : PluginClass) : Registry × Option String :=
  if (registryGet reg c.pname).isSome then
    (reg, some ("Plugin " ++ sq ++ c.pname ++ sq ++ " is already registered. Cannot register "
      ++ c.clsName ++ "."))
  else (reg ++ [(c.pname, c)], none)

/-! ## Repository factory (`plugins/factory.py`) -/

/-- The payload of the `ValueError` raised for an unknown backend. -/
structure UnknownBackendError where
  backend : String
  available : List String
deriving Repr, DecidableEq

/-- The message of that `ValueError`:
`f"Unknown backend '{backend}'. Available backends: {...}"` where the
available names are comma-joined, or `none` if the registry is empty. -/
def UnknownBackendError.message (e : UnknownBackendError) : String :=
  "Unknown backend " ++ sq ++ e.backend ++ sq ++ ". Available backends: " ++
    (if e.available.isEmpty then "none" else String.intercalate ", " e.available)

/-- The failures `RepositoryFactory.__init__` can raise: a `ValueError`
escaping a plugin module's self-registration (not caught by the
`except ImportError` guards), or the unknown-backend `ValueError`. -/
inductive FactoryError where
  | duplicateRegistration (msg : String)
  | unknownBackend (err : UnknownBackendError)
deriving Repr, DecidableEq

/-- Observable side effects of `RepositoryFactory.__init__` on the chosen
plugin: `plugin_class()` then `plugin.initialize(**config)`.  (The
temporary instance `register` creates to read the name is a registration
side effect, not a factory one.) -/
inductive FactoryEvent where
  | pluginConstructed (clsName : String)
  | pluginInitCalled (clsName : String)
deriving Repr, DecidableEq

/-- A constructed factory holds the live plugin. -/
structure RepositoryFactory where
  plugin : PluginClass
deriving Repr, DecidableEq

/-- `_ensure_backends_registered`: a no-op once the class flag is set;
otherwise import each backend plugin module in order, which registers its
class as a module-level side effect.  `importable` lists the plugin classes
of the modules whose imports succeed (a module whose dependencies are
missing raises `ImportError` and is silently skipped, so its class simply
never appears).  CPython executes each module at most once per process, so
in the only state where this fold runs the classes are not yet registered;
a duplicate name would raise `ValueError` out of the module import, which
the `except ImportError` guards do not catch — that propagation is
modelled by the error case. -/
def ensureBackendsRegistered (flag : Bool) (importable : List PluginClass) (reg : Registry) :
    Except String Registry :=
  if flag then .ok reg else go importable reg
where
  /-- Import the modules in order, stopping at a registration error. -/
  go : List PluginClass → Registry → Except String Registry
  | [], r => .ok r
  | c :: rest, r =>
    match registerPlugin r c with
    | (r1, none) => go rest r1
    | (_, some msg) => .error msg

/-- `RepositoryFactory.__init__(backend, **config)`: ensure backends are
registered, resolve the name, and on success construct exactly one plugin
instance and call `initialize` on it immediately; on failure raise with no
plugin constructed.  The second component lists the plugin side effects in
order. -/
def RepositoryFactory.construct (flag : Bool) (importable : List PluginClass) (reg : Registry)
    (backend : String) : Except FactoryError RepositoryFactory × List FactoryEvent :=
  match ensureBackendsRegistered flag importable reg with
  | .error msg => (.error (.duplicateRegistration msg), [])
  | .ok reg1 =>
    match registryGet reg1 backend with
    | none => (.error (.unknownBackend { backend := backend, available := registryList reg1 }), [])
    | some c => (.ok { plugin := c }, [.pluginConstructed c.clsName, .pluginInitCalled c.clsName])

/-! ## Sample data for the concrete scenarios -/

/-- A sample entity whose optional field is absent. -/
def sampleItem : ItemModel :=
  { id := 7, name := "Acme", tags := ["a", "b"], meta := [("k", "v")], description := none }

/-- A sample entity with every field populated (and XML-representable). -/
def sampleRound : ItemModel :=
  { id := 7, name := "Acme", tags := ["a", "b"], meta := [("k", "v")], description := some "d" }

/-- First creation payload of the three-create scenario. -/
def sampleCreateA : ItemCreate := { name := "one", tags := [], meta := [], description := none }

/-- Second creation payload of the three-create scenario. -/
def sampleCreateB : ItemCreate :=
  { name := "two", tags := ["t"], meta := [], description := some "x" }

/-- Third creation payload of the three-create scenario. -/
def sampleCreateC : ItemCreate :=
  { name := "three", tags := [], meta := [("k", "v")], description := none }

/-- The state after creating `sampleCreateA` on a fresh file store. -/
def fileStep1 : Except PyErr ItemModel × FileStorage × Dir :=
  FileRepo.create { defaultFormat := "json", nextId := 1 } [] sampleCreateA

/-- The state after then creating `sampleCreateB`. -/
def fileStep2 : Except PyErr ItemModel × FileStorage × Dir :=
  FileRepo.create fileStep1.2.1 fileStep1.2.2 sampleCreateB

/-- The state after then creating `sampleCreateC`. -/
def fileStep3 : Except PyErr ItemModel × FileStorage × Dir :=
  FileRepo.create fileStep2.2.1 fileStep2.2.2 sampleCreateC

/-- A fresh memory repository after the same three creations. -/
def memStep3 : MemoryRepo :=
  MemoryRepo.fresh.runOps [.create sampleCreateA, .create sampleCreateB, .create sampleCreateC]

/-- The memory backend's plugin class as the registry sees it. -/
def memoryPluginClass : PluginClass := { clsName := "MemoryPlugin", pname := "memory" }

/-! ## Proof-layer shapes

Helper shapes the round-trip and invariant proofs below quantify
over: accumulator forms for the XML reader fold, the class of
XML-representable entities, the memory-backend invariant, and the
ID-allocation session machinery. -/

/-- A forest of childless `k`-tagged elements carrying the given texts. -/
def strLeafForest (k : String) : List String → XmlForest
  | [] => .nil
  | t :: rest => .cons (.elem k (some t) .nil) (strLeafForest k rest)

/-- A forest of childless elements, one per mapping entry. -/
def pairLeafForest : List (String × String) → XmlForest
  | [] => .nil
  | (k, v) :: rest => .cons (.elem k (some v) .nil) (pairLeafForest rest)

/-- Snoc a list of strings onto a JSON array. -/
def arrSnocStrs (a : JsonArr) : List String → JsonArr
  | [] => a
  | t :: rest => arrSnocStrs (a.snoc (.str t)) rest

/-- The fields whose semantics the XML encoding preserves for `ItemModel`:
nonempty strings (an empty text serializes as a self-closing element and
reads back as absent), mapping keys that are distinct (repeated sibling
tags are collapsed into a list on read) and valid XML names (`ElementTree`
would refuse to serialize others), and a `description` that is not the
empty string. -/
def xmlSafe (e : ItemModel) : Prop :=
  e.name ≠ "" ∧ (∀ t ∈ e.tags, t ≠ "") ∧ (e.meta.map Prod.fst).Nodup ∧
  (∀ kv ∈ e.meta, kv.1.data ≠ [] ∧ kv.1.data.all Char.isAlpha ∧ kv.2 ≠ "") ∧
  e.description ≠ some ""

/-- Entities whose XML dump both serializes (no `ExpatError` out of
`minidom.parseString`) and re-parses to itself (no character for expat's
end-of-line normalization to rewrite): `xmlSafe` plus every text free of
control characters and of `\r`. -/
def xmlRoundSafe (e : ItemModel) : Prop :=
  xmlSafe e ∧ strXmlOk e.name = true ∧ (∀ t ∈ e.tags, strXmlOk t = true) ∧
  (∀ kv ∈ e.meta, strXmlOk kv.2 = true) ∧ e.description.all strXmlOk = true

/-- The object accumulated after the reader has consumed the `id`, `name`
and repeated `tags` elements: no `tags` entry for an empty list, the bare
text for a single element (wrapped into a list only by the later
`model_fields` post-processing), a collapsed list for two or more. -/
def tagsObjAfter (idv namev : JsonVal) : List String → JsonObj
  | [] => .cons "id" idv (.cons "name" namev .nil)
  | [t] => .cons "id" idv (.cons "name" namev (.cons "tags" (.str t) .nil))
  | t1 :: t2 :: tr =>
    .cons "id" idv (.cons "name" namev (.cons "tags" (.arr (strArr (t1 :: t2 :: tr))) .nil))

/-- The invariant the in-memory dictionary keeps through every API call:
each value carries its key as its id, every key is below the counter, and
the keys appear in strictly increasing order (each `create` appends a key
larger than all existing ones, `update` replaces in place, `delete`
removes). -/
def memInv (r : MemoryRepo) : Prop :=
  (∀ kv ∈ r.storage, kv.2.id = kv.1 ∧ kv.1 < r.nextId) ∧
  List.Pairwise (fun a b : Int × ItemModel => a.1 < b.1) r.storage

/-- Run `k` consecutive `get_next_id` calls, collecting the returned ids. -/
def runCalls : FileStorage → Dir → Nat → List Int × FileStorage × Dir
  | st, dir, 0 => ([], st, dir)
  | st, dir, k + 1 =>
    let r := FileStorage.getNextId st dir
    let rest := runCalls r.2.1 r.2.2 k
    (r.1 :: rest.1, rest.2)

/-- Run a list of sessions over one directory: each session constructs a
fresh `FileStorage` over the directory as it stands (the previous one is
dropped, i.e. the store is closed and reopened) and performs its number of
`get_next_id` calls. -/
def runSessions (fmt : String) : Dir → List Nat → Except PyErr (List Int × Dir)
  | dir, [] => .ok ([], dir)
  | dir, k :: sched =>
    match FileStorage.construct fmt dir with
    | .error err => .error err
    | .ok st =>
      match runSessions fmt (runCalls st dir k).2.2 sched with
      | .error err => .error err
      | .ok rest => .ok ((runCalls st dir k).1 ++ rest.1, rest.2)

/-- The integers `start, start+1, ..., start+n-1`. -/
def intRange (start : Int) (n : Nat) : List Int :=
  (List.range n).map (fun j : Nat => start + (j : Int))

/-! ## Lemmas: decimal representation -/

theorem digitsVal_append (l1 l2 : List Char) (a : Nat) :
    digitsVal a (l1 ++ l2) = digitsVal (digitsVal a l1) l2 := by
  induction l1 generalizing a with
  | nil => rfl
  | cons c rest ih =>
    rw [List.cons_append]
    show digitsVal (a * 10 + digitVal c) (rest ++ l2) = digitsVal (digitsVal a (c :: rest)) l2
    rw [ih]
    rfl

theorem digitChar_isDigit {d : Nat} (h : d < 10) : (digitChar d).isDigit = true := by
  interval_cases d <;> decide

theorem digitVal_digitChar {d : Nat} (h : d < 10) : digitVal (digitChar d) = d := by
  interval_cases d <;> decide

theorem natDigitsAux_ne_nil {fuel n : Nat} (h : n < fuel) : natDigitsAux fuel n ≠ [] := by
  cases fuel with
  | zero => omega
  | succ f =>
    simp only [natDigitsAux]
    split <;> simp

theorem natDigitsAux_all_digit {fuel n : Nat} (h : n < fuel) :
    ∀ c ∈ natDigitsAux fuel n, c.isDigit = true := by
  induction fuel generalizing n with
  | zero => omega
  | succ f ih =>
    simp only [natDigitsAux]
    split
    · next h10 =>
      intro c hc
      simp only [List.mem_singleton] at hc
      subst hc
      exact digitChar_isDigit h10
    · next h10 =>
      intro c hc
      rcases List.mem_append.mp hc with h1 | h2
      · have hdivn : n / 10 < n := Nat.div_lt_self (by omega) (by omega)
        exact ih (by omega) c h1
      · simp only [List.mem_singleton] at h2
        subst h2
        exact digitChar_isDigit (Nat.mod_lt _ (by omega))

theorem digitsVal_natDigitsAux {fuel n : Nat} (h : n < fuel) (a : Nat) :
    digitsVal a (natDigitsAux fuel n) = a * 10 ^ (natDigitsAux fuel n).length + n := by
  induction fuel generalizing n a with
  | zero => omega
  | succ f ih =>
    simp only [natDigitsAux]
    split
    · next h10 =>
      show a * 10 + digitVal (digitChar n) = a * 10 ^ 1 + n
      rw [digitVal_digitChar h10, pow_one]
    · next h10 =>
      have hdivn : n / 10 < n := Nat.div_lt_self (by omega) (by omega)
      have hdiv : n / 10 < f := by omega
      rw [digitsVal_append, ih hdiv]
      show (a * 10 ^ (natDigitsAux f (n / 10)).length + n / 10) * 10
            + digitVal (digitChar (n % 10))
          = a * 10 ^ (natDigitsAux f (n / 10) ++ [digitChar (n % 10)]).length + n
      rw [List.length_append, digitVal_digitChar (Nat.mod_lt _ (by omega))]
      have heq : (a * 10 ^ (natDigitsAux f (n / 10)).length + n / 10) * 10 + n % 10
          = a * 10 ^ ((natDigitsAux f (n / 10)).length + 1) + (n / 10 * 10 + n % 10) := by ring
      rw [heq, Nat.div_add_mod' n 10]
      rfl

theorem natRepr_data (n : Nat) : (natRepr n).data = natDigitsAux (n + 1) n := rfl

theorem natRepr_data_ne_nil (n : Nat) : (natRepr n).data ≠ [] :=
  natDigitsAux_ne_nil (Nat.lt_succ_self n)

theorem natRepr_all_digit (n : Nat) : ∀ c ∈ (natRepr n).data, c.isDigit = true :=
  natDigitsAux_all_digit (Nat.lt_succ_self n)

theorem digitsVal_natRepr (n : Nat) : digitsVal 0 (natRepr n).data = n := by
  rw [natRepr_data, digitsVal_natDigitsAux (Nat.lt_succ_self n)]
  simp

theorem isDigit_ne_minus {c : Char} (h : c.isDigit = true) : c ≠ '-' := by
  intro hc; subst hc; simp at h

theorem isDigit_ne_dot {c : Char} (h : c.isDigit = true) : c ≠ '.' := by
  intro hc; subst hc; simp at h

theorem intRepr_data_ne_nil (i : Int) : (intRepr i).data ≠ [] := by
  unfold intRepr
  split
  · rw [String.data_append]
    simp
  · exact natRepr_data_ne_nil _

theorem intRepr_ne_empty (i : Int) : intRepr i ≠ "" := by
  intro h
  exact intRepr_data_ne_nil i (by rw [h])

theorem intRepr_no_dot (i : Int) : ∀ c ∈ (intRepr i).data, c ≠ '.' := by
  unfold intRepr
  split
  · rw [String.data_append]
    intro c hc
    rcases List.mem_append.mp hc with h1 | h2
    · simp only [show ("-" : String).data = ['-'] from rfl, List.mem_singleton] at h1
      subst h1; decide
    · exact isDigit_ne_dot (natRepr_all_digit _ c h2)
  · intro c hc
    exact isDigit_ne_dot (natRepr_all_digit _ c hc)

theorem pyIsDigit_natRepr (n : Nat) : pyIsDigit (natRepr n) = true := by
  unfold pyIsDigit
  rw [Bool.and_eq_true, List.all_eq_true]
  constructor
  · simp [natRepr_data_ne_nil n]
  · exact natRepr_all_digit n

theorem pyIntOfDigits_natRepr (n : Nat) : pyIntOfDigits (natRepr n) = (n : Int) := by
  unfold pyIntOfDigits
  rw [digitsVal_natRepr]
  rfl

theorem parseDecIntAux_digits {l : List Char} (hne : l ≠ [])
    (hall : ∀ x ∈ l, x.isDigit = true) :
    parseDecIntAux l = some (Int.ofNat (digitsVal 0 l)) := by
  cases l with
  | nil => exact absurd rfl hne
  | cons c rest =>
    have hc : c ≠ '-' := isDigit_ne_minus (hall c (by simp))
    simp only [parseDecIntAux]
    rw [if_neg hc, if_pos (List.all_eq_true.mpr hall)]

theorem parseDecInt_natRepr (n : Nat) : parseDecInt (natRepr n) = some (n : Int) := by
  unfold parseDecInt
  rw [parseDecIntAux_digits (natRepr_data_ne_nil n) (natRepr_all_digit n), digitsVal_natRepr]
  rfl

theorem parseDecInt_intRepr (i : Int) : parseDecInt (intRepr i) = some i := by
  by_cases hneg : i < 0
  · have hrepr : intRepr i = "-" ++ natRepr i.natAbs := by unfold intRepr; rw [if_pos hneg]
    rw [hrepr]
    unfold parseDecInt
    rw [String.data_append]
    have hdd : ("-" : String).data = ['-'] := rfl
    rw [hdd]
    simp only [List.cons_append, List.nil_append, parseDecIntAux, if_pos rfl]
    have h1 : (natRepr i.natAbs).data.isEmpty = false := by
      cases hd : (natRepr i.natAbs).data with
      | nil => exact absurd hd (natRepr_data_ne_nil i.natAbs)
      | cons c rest => rfl
    have h2 : (natRepr i.natAbs).data.all Char.isDigit = true :=
      List.all_eq_true.mpr (natRepr_all_digit _)
    rw [h1, h2]
    simp only [Bool.not_false, Bool.true_and, if_true]
    rw [digitsVal_natRepr]
    simp only [Int.ofNat_eq_natCast]
    congr 1
    omega
  · have hrepr : intRepr i = natRepr i.natAbs := by unfold intRepr; rw [if_neg hneg]
    rw [hrepr, parseDecInt_natRepr]
    congr 1
    omega

theorem normText_intRepr (i : Int) : normText (intRepr i) = some (intRepr i) := by
  unfold normText
  rw [if_neg (intRepr_ne_empty i)]

/-! ## Lemmas: Python path helpers -/

theorem takeWhile_append_stop {p : Char → Bool} {l1 l2 : List Char} {x : Char}
    (h1 : ∀ c ∈ l1, p c = true) (h2 : p x = false) :
    (l1 ++ x :: l2).takeWhile p = l1 := by
  induction l1 with
  | nil => simp [List.takeWhile_cons, h2]
  | cons c rest ih =>
    rw [List.cons_append, List.takeWhile_cons, if_pos (h1 c (by simp))]
    rw [ih (fun d hd => h1 d (by simp [hd]))]

theorem take_len_append (l1 l2 : List Char) : (l1 ++ l2).take l1.length = l1 := by
  induction l1 with
  | nil => rfl
  | cons c rest ih => simp [List.take, ih]

theorem drop_len_append (l1 l2 : List Char) : (l1 ++ l2).drop l1.length = l2 := by
  induction l1 with
  | nil => rfl
  | cons c rest ih => simp [List.drop, ih]

theorem pySplitExt_concat {a b : String} (ha : a.data ≠ []) (hb : b.data ≠ [])
    (hb2 : ∀ c ∈ b.data, c ≠ '.') :
    pySplitExt (a ++ "." ++ b) = (a, "." ++ b) := by
  have hdata : (a ++ "." ++ b).data = a.data ++ '.' :: b.data := by
    rw [String.data_append, String.data_append]
    simp [show ("." : String).data = ['.'] from rfl]
  have hrev : (a.data ++ '.' :: b.data).reverse = b.data.reverse ++ '.' :: a.data.reverse := by
    rw [List.reverse_append, List.reverse_cons]
    simp
  have htw : ((a.data ++ '.' :: b.data).reverse.takeWhile (fun c => decide (c ≠ '.')))
      = b.data.reverse := by
    rw [hrev]
    refine takeWhile_append_stop ?_ (by simp)
    intro c hc
    simp only [decide_eq_true_eq]
    exact hb2 c (List.mem_reverse.mp hc)
  have hla : 0 < a.data.length := List.length_pos.mpr ha
  have hlb : 0 < b.data.length := List.length_pos.mpr hb
  unfold pySplitExt
  rw [hdata, htw]
  rw [List.length_reverse, List.length_append, List.length_cons]
  rw [if_neg (by omega), if_neg (by omega), if_neg (by omega)]
  have hidx : a.data.length + (b.data.length + 1) - b.data.length - 1 = a.data.length := by
    omega
  rw [hidx, take_len_append, drop_len_append]
  constructor

theorem string_mk_data (s : String) : (⟨s.data⟩ : String) = s := rfl

theorem data_dot_append (b : String) : ("." ++ b).data = '.' :: b.data := by
  rw [String.data_append]
  rfl

theorem lstripDots_dot {b : String} (hb2 : ∀ c ∈ b.data, c ≠ '.') :
    lstripDots ("." ++ b) = b := by
  unfold lstripDots
  rw [data_dot_append, List.dropWhile_cons, if_pos (by decide)]
  cases hd : b.data with
  | nil => rw [List.dropWhile_nil]; exact congrArg String.mk hd.symm
  | cons c rest =>
    have hc : c ≠ '.' := hb2 c (by rw [hd]; simp)
    rw [List.dropWhile_cons, if_neg (by simpa using hc)]
    exact congrArg String.mk hd.symm

/-- The extensions of `supportedExts` are nonempty and dot-free. -/
theorem supportedExts_ok : ∀ ext ∈ supportedExts, ext.data ≠ [] ∧ ∀ c ∈ ext.data, c ≠ '.' := by
  decide

theorem pySuffix_entityFileName {ext : String} (i : Int) (hne : ext.data ≠ [])
    (hdot : ∀ c ∈ ext.data, c ≠ '.') :
    pySuffix (entityFileName i ext) = "." ++ ext := by
  unfold pySuffix entityFileName
  rw [pySplitExt_concat (intRepr_data_ne_nil i) hne hdot]

theorem pyStem_entityFileName {ext : String} (i : Int) (hne : ext.data ≠ [])
    (hdot : ∀ c ∈ ext.data, c ≠ '.') :
    pyStem (entityFileName i ext) = intRepr i := by
  unfold pyStem entityFileName
  rw [pySplitExt_concat (intRepr_data_ne_nil i) hne hdot]

theorem lstripDots_pySuffix_entityFileName {ext : String} (i : Int) (hne : ext.data ≠ [])
    (hdot : ∀ c ∈ ext.data, c ≠ '.') :
    lstripDots (pySuffix (entityFileName i ext)) = ext := by
  rw [pySuffix_entityFileName i hne hdot, lstripDots_dot hdot]

theorem entityFileName_inj_ext {ext1 ext2 : String} (i : Int)
    (h : entityFileName i ext1 = entityFileName i ext2) : ext1 = ext2 := by
  unfold entityFileName at h
  have : (intRepr i ++ "." ++ ext1).data = (intRepr i ++ "." ++ ext2).data := by rw [h]
  rw [String.data_append, String.data_append, String.data_append, String.data_append] at this
  have h2 := List.append_cancel_left this
  exact congrArg String.mk h2

/-! ## Lemmas: directories and file discovery -/

theorem dirLookup_dirWrite_self (d : Dir) (n : String) (fd : FileData) :
    dirLookup (dirWrite d n fd) n = some fd := by
  induction d with
  | nil => simp [dirWrite, dirLookup]
  | cons e rest ih =>
    obtain ⟨n0, fd0⟩ := e
    by_cases h : n0 = n
    · subst h; simp [dirWrite, dirLookup]
    · simp [dirWrite, dirLookup, h, ih]

theorem dirLookup_dirWrite_ne (d : Dir) {n n' : String} (h : n' ≠ n) (fd : FileData) :
    dirLookup (dirWrite d n fd) n' = dirLookup d n' := by
  have h2 : ¬(n = n') := fun hh => h hh.symm
  induction d with
  | nil => simp [dirWrite, dirLookup, h2]
  | cons e rest ih =>
    obtain ⟨n0, fd0⟩ := e
    by_cases h0 : n0 = n
    · subst h0
      simp [dirWrite, dirLookup, h2]
    · simp only [dirWrite, if_neg h0, dirLookup]
      by_cases h1 : n0 = n'
      · simp [h1]
      · simp [h1, ih]

theorem dirRemove_cons (n0 : String) (fd0 : FileData) (rest : Dir) (n : String) :
    dirRemove ((n0, fd0) :: rest) n
      = if n0 = n then dirRemove rest n else (n0, fd0) :: dirRemove rest n := by
  by_cases h : n0 = n <;> simp [dirRemove, List.filter_cons, h]

theorem dirLookup_dirRemove_self (d : Dir) (n : String) :
    dirLookup (dirRemove d n) n = none := by
  induction d with
  | nil => rfl
  | cons e rest ih =>
    obtain ⟨n0, fd0⟩ := e
    rw [dirRemove_cons]
    by_cases h : n0 = n
    · rw [if_pos h]; exact ih
    · rw [if_neg h]
      show (if n0 = n then some fd0 else dirLookup (dirRemove rest n) n) = none
      rw [if_neg h]
      exact ih

theorem dirLookup_dirRemove_ne (d : Dir) {n n' : String} (h : n' ≠ n) :
    dirLookup (dirRemove d n) n' = dirLookup d n' := by
  induction d with
  | nil => rfl
  | cons e rest ih =>
    obtain ⟨n0, fd0⟩ := e
    rw [dirRemove_cons]
    by_cases h0 : n0 = n
    · subst h0
      rw [if_pos rfl]
      show dirLookup (dirRemove rest n0) n' = if n0 = n' then some fd0 else dirLookup rest n'
      rw [if_neg (fun hh : n0 = n' => h hh.symm)]
      exact ih
    · rw [if_neg h0]
      show (if n0 = n' then some fd0 else dirLookup (dirRemove rest n) n')
        = if n0 = n' then some fd0 else dirLookup rest n'
      by_cases h1 : n0 = n'
      · rw [if_pos h1, if_pos h1]
      · rw [if_neg h1, if_neg h1]
        exact ih

theorem findEntityFile_nil (i : Int) : findEntityFile [] i = none := by
  simp [findEntityFile, findEntityFile.go, dirLookup]

theorem findEntityFile_none {dir : Dir} {i : Int}
    (h : ∀ ext ∈ supportedExts, dirLookup dir (entityFileName i ext) = none) :
    findEntityFile dir i = none := by
  have hj := h "json" (by simp [supportedExts])
  have hx := h "xml" (by simp [supportedExts])
  have hm := h "md" (by simp [supportedExts])
  simp [findEntityFile, findEntityFile.go, hj, hx, hm]

theorem findEntityFile_some {dir : Dir} {i : Int} {nm : String} {fd : FileData}
    (h : findEntityFile dir i = some (nm, fd)) :
    ∃ ext, ext ∈ supportedExts ∧ nm = entityFileName i ext ∧ dirLookup dir nm = some fd := by
  simp only [findEntityFile, findEntityFile.go] at h
  cases hj : dirLookup dir (entityFileName i "json") with
  | some fdj =>
    rw [hj] at h
    simp only [Option.some.injEq, Prod.mk.injEq] at h
    obtain ⟨h1, h2⟩ := h
    subst h1; subst h2
    exact ⟨"json", by simp [supportedExts], rfl, hj⟩
  | none =>
    rw [hj] at h
    simp only at h
    cases hx : dirLookup dir (entityFileName i "xml") with
    | some fdx =>
      rw [hx] at h
      simp only [Option.some.injEq, Prod.mk.injEq] at h
      obtain ⟨h1, h2⟩ := h
      subst h1; subst h2
      exact ⟨"xml", by simp [supportedExts], rfl, hx⟩
    | none =>
      rw [hx] at h
      simp only at h
      cases hm : dirLookup dir (entityFileName i "md") with
      | some fdm =>
        rw [hm] at h
        simp only [Option.some.injEq, Prod.mk.injEq] at h
        obtain ⟨h1, h2⟩ := h
        subst h1; subst h2
        exact ⟨"md", by simp [supportedExts], rfl, hm⟩
      | none =>
        rw [hm] at h
        simp at h

/-! ## Lemmas: validation inverts the dump -/

theorem asStrList_go_strArr (ts : List String) : asStrList.go (strArr ts) = some ts := by
  induction ts with
  | nil => rfl
  | cons t rest ih => simp [strArr, asStrList.go, asStr, ih]

theorem asStrList_strArr (ts : List String) : asStrList (.arr (strArr ts)) = some ts := by
  simp [asStrList, asStrList_go_strArr]

theorem asStrPairs_go_strObj (ps : List (String × String)) :
    asStrPairs.go (strObj ps) = some ps := by
  induction ps with
  | nil => rfl
  | cons p rest ih => simp [strObj, asStrPairs.go, asStr, ih]

theorem asStrPairs_strObj (ps : List (String × String)) :
    asStrPairs (.obj (strObj ps)) = some ps := by
  simp [asStrPairs, asStrPairs_go_strObj]

theorem asStrPairs_nil : asStrPairs (.obj .nil) = some [] := by
  simp [asStrPairs, asStrPairs.go]

theorem validate_modelDump (e : ItemModel) (b : Bool) :
    ItemModel.modelValidate (e.modelDump b) = some e := by
  obtain ⟨id, name, tags, meta, desc⟩ := e
  cases desc with
  | none =>
    cases b with
    | false =>
      simp [ItemModel.modelDump, JsonObj.append, ItemModel.modelValidate, objGet, asIntLax,
        asStr, asStrList_strArr, asStrPairs_strObj, asStrPairs_nil]
    | true =>
      simp [ItemModel.modelDump, JsonObj.append, ItemModel.modelValidate, objGet, asIntLax,
        asStr, asStrList_strArr, asStrPairs_strObj, asStrPairs_nil]
  | some s =>
    simp [ItemModel.modelDump, JsonObj.append, ItemModel.modelValidate, objGet, asIntLax,
      asStr, asStrList_strArr, asStrPairs_strObj, asStrPairs_nil]

/-! ## Lemmas: the XML round trip

The reader folds `insertTag` over the written forest.  The helper shapes
below let every induction run over ordinary lists (the tag list and the
mapping of the entity) while the object accumulator stays concrete. -/


theorem listNodes_strArr (k : String) {ts : List String} (h : ∀ t ∈ ts, t ≠ "") :
    listNodes k (strArr ts) = strLeafForest k ts := by
  induction ts with
  | nil => rfl
  | cons t rest ih =>
    have ht : t ≠ "" := h t (by simp)
    simp only [strArr, listNodes, strLeafForest, pyStr, normText, if_neg ht]
    exact congrArg _ (ih (fun x hx => h x (by simp [hx])))

theorem dictToXml_strObj {ps : List (String × String)} (h : ∀ kv ∈ ps, kv.2 ≠ "") :
    dictToXml (strObj ps) = pairLeafForest ps := by
  induction ps with
  | nil => rfl
  | cons p rest ih =>
    obtain ⟨k, v⟩ := p
    have hv : v ≠ "" := h (k, v) (by simp)
    simp only [strObj, dictToXml, keyNodes, pyStr, normText, if_neg hv, pairLeafForest,
      XmlForest.append]
    exact congrArg _ (ih (fun x hx => h x (by simp [hx])))

theorem snoc_strArr (xs : List String) (y : String) :
    (strArr xs).snoc (.str y) = strArr (xs ++ [y]) := by
  induction xs with
  | nil => rfl
  | cons x rest ih =>
    simp only [strArr, JsonArr.snoc, List.cons_append, ih]
    rfl

theorem arrSnocStrs_strArr (xs ys : List String) :
    arrSnocStrs (strArr xs) ys = strArr (xs ++ ys) := by
  induction ys generalizing xs with
  | nil => simp [arrSnocStrs]
  | cons y rest ih =>
    simp only [arrSnocStrs, snoc_strArr, ih]
    congr 1
    simp

theorem objGet_strObj_none {ps : List (String × String)} {k : String}
    (h : ∀ kv ∈ ps, kv.1 ≠ k) : objGet (strObj ps) k = none := by
  induction ps with
  | nil => rfl
  | cons p rest ih =>
    obtain ⟨k0, v0⟩ := p
    have hk : k0 ≠ k := h (k0, v0) (by simp)
    simp only [strObj, objGet, if_neg hk]
    exact ih (fun x hx => h x (by simp [hx]))

theorem strObj_append (a b : List (String × String)) :
    strObj (a ++ b) = JsonObj.append (strObj a) (strObj b) := by
  induction a with
  | nil => rfl
  | cons p rest ih =>
    obtain ⟨k, v⟩ := p
    simp only [List.cons_append, strObj, JsonObj.append]
    exact congrArg _ ih

theorem pairFold {ps : List (String × String)} :
    ∀ done : List (String × String), (((done ++ ps).map Prod.fst).Nodup) →
    xmlToDictAux (strObj done) (pairLeafForest ps) = strObj (done ++ ps) := by
  induction ps with
  | nil => intro done _; simp [pairLeafForest, xmlToDictAux]
  | cons p rest ih =>
    intro done hnd
    obtain ⟨k, v⟩ := p
    have hk : ∀ kv ∈ done, kv.1 ≠ k := by
      intro kv hkv
      have h1 : kv.1 ∈ done.map Prod.fst := List.mem_map_of_mem _ hkv
      have h2 : k ∈ ((k, v) :: rest).map Prod.fst := by simp
      intro heq
      rw [List.map_append] at hnd
      exact (List.disjoint_of_nodup_append hnd) (heq ▸ h1) h2
    simp only [pairLeafForest, xmlToDictAux, childValue, XmlTree.tag]
    rw [show insertTag (strObj done) k (.str v) = strObj (done ++ [(k, v)]) by
      simp only [insertTag, objGet_strObj_none hk]
      rw [strObj_append]
      rfl]
    rw [ih (done ++ [(k, v)]) (by simpa using hnd)]
    simp

theorem tagsFold (idv namev : JsonVal) (f : XmlForest) (rest : List String) :
    ∀ cur : JsonArr,
    xmlToDictAux (.cons "id" idv (.cons "name" namev (.cons "tags" (.arr cur) .nil)))
        ((strLeafForest "tags" rest).append f)
      = xmlToDictAux
          (.cons "id" idv (.cons "name" namev (.cons "tags" (.arr (arrSnocStrs cur rest)) .nil)))
          f := by
  induction rest with
  | nil => intro cur; rfl
  | cons t r ih =>
    intro cur
    simp only [strLeafForest, XmlForest.append, xmlToDictAux, childValue, XmlTree.tag]
    rw [show insertTag (.cons "id" idv (.cons "name" namev (.cons "tags" (.arr cur) .nil)))
          "tags" (.str t)
        = (.cons "id" idv (.cons "name" namev (.cons "tags" (.arr (cur.snoc (.str t))) .nil)))
      from by simp [insertTag, objGet, objSet]]
    exact ih (cur.snoc (.str t))

theorem normText_of_ne {s : String} (h : s ≠ "") : normText s = some s := by
  simp [normText, h]

theorem asStrList_single (t : String) :
    asStrList (.arr (.cons (.str t) .nil)) = some [t] := by
  simp [asStrList, asStrList.go, asStr]


theorem tagsBlockFold (idv namev : JsonVal) (tags : List String) (f : XmlForest) :
    xmlToDictAux (.cons "id" idv (.cons "name" namev .nil))
        ((strLeafForest "tags" tags).append f)
      = xmlToDictAux (tagsObjAfter idv namev tags) f := by
  rcases tags with _ | ⟨t1, _ | ⟨t2, tr⟩⟩
  · rfl
  · rfl
  · have h := tagsFold idv namev f tr (strArr [t1, t2])
    rw [arrSnocStrs_strArr] at h
    exact h

theorem validate_loadXml_dump (e : ItemModel) (hx : xmlSafe e) :
    ItemModel.modelValidate (loadXmlDoc (buildXmlDoc (e.modelDump true))) = some e := by
  obtain ⟨id, name, tags, meta, desc⟩ := e
  obtain ⟨hname, htags, hnodup, hmeta, hdesc⟩ := hx
  simp only at hname htags hnodup hmeta hdesc
  have hmv : ∀ kv ∈ meta, kv.2 ≠ "" := fun kv hkv => (hmeta kv hkv).2.2
  have hpair : xmlToDictAux .nil (pairLeafForest meta) = strObj meta := by
    have h := @pairFold meta [] (by simpa using hnodup)
    simpa using h
  cases desc with
  | none =>
    have hbuild : buildXmlDoc (ItemModel.modelDump ⟨id, name, tags, meta, none⟩ true)
        = .elem "ItemModel" none
            (.cons (.elem "id" (some (intRepr id)) .nil)
              (.cons (.elem "name" (some name) .nil)
                ((strLeafForest "tags" tags).append
                  (.cons (.elem "meta" none (pairLeafForest meta)) .nil)))) := by
      simp only [ItemModel.modelDump, JsonObj.append, buildXmlDoc, dictToXml, keyNodes,
        XmlForest.append, pyStr, normText_intRepr, normText_of_ne hname,
        listNodes_strArr _ htags, dictToXml_strObj hmv]
    rw [hbuild]
    simp only [loadXmlDoc, xmlToDict]
    have h1 : xmlToDictAux .nil
        (.cons (.elem "id" (some (intRepr id)) .nil)
          (.cons (.elem "name" (some name) .nil)
            ((strLeafForest "tags" tags).append
              (.cons (.elem "meta" none (pairLeafForest meta)) .nil))))
        = xmlToDictAux (tagsObjAfter (.str (intRepr id)) (.str name) tags)
            (.cons (.elem "meta" none (pairLeafForest meta)) .nil) :=
      tagsBlockFold _ _ tags _
    rw [h1]
    rcases tags with _ | ⟨t1, _ | ⟨t2, tr⟩⟩ <;>
      cases meta with
      | nil =>
        simp [tagsObjAfter, xmlToDictAux, childValue, XmlTree.tag, insertTag, objGet,
          objSet, JsonObj.append, pairLeafForest, postProcessXmlFields,
          ItemModel.modelValidate, asIntLax, parseDecInt_intRepr, asStr, asStrList_single,
          asStrList_strArr, asStrPairs_strObj, asStrPairs_nil]
      | cons p pr =>
        obtain ⟨k0, v0⟩ := p
        simp only [tagsObjAfter, pairLeafForest, childValue, xmlToDictAux, XmlTree.tag,
          insertTag, objGet, objSet, JsonObj.append]
        rw [show xmlToDictAux (.cons k0 (.str v0) .nil) (pairLeafForest pr)
              = strObj ((k0, v0) :: pr) from hpair]
        simp [postProcessXmlFields, objGet, objSet, ItemModel.modelValidate, asIntLax,
          parseDecInt_intRepr, asStr, asStrList_single, asStrList_strArr,
          asStrPairs_strObj, asStrPairs_nil]
  | some s =>
    have hs : s ≠ "" := fun h => hdesc (by rw [h])
    have hbuild : buildXmlDoc (ItemModel.modelDump ⟨id, name, tags, meta, some s⟩ true)
        = .elem "ItemModel" none
            (.cons (.elem "id" (some (intRepr id)) .nil)
              (.cons (.elem "name" (some name) .nil)
                ((strLeafForest "tags" tags).append
                  (.cons (.elem "meta" none (pairLeafForest meta))
                    (.cons (.elem "description" (some s) .nil) .nil))))) := by
      simp only [ItemModel.modelDump, JsonObj.append, buildXmlDoc, dictToXml, keyNodes,
        XmlForest.append, pyStr, normText_intRepr, normText_of_ne hname,
        normText_of_ne hs, listNodes_strArr _ htags, dictToXml_strObj hmv]
    rw [hbuild]
    simp only [loadXmlDoc, xmlToDict]
    have h1 : xmlToDictAux .nil
        (.cons (.elem "id" (some (intRepr id)) .nil)
          (.cons (.elem "name" (some name) .nil)
            ((strLeafForest "tags" tags).append
              (.cons (.elem "meta" none (pairLeafForest meta))
                (.cons (.elem "description" (some s) .nil) .nil)))))
        = xmlToDictAux (tagsObjAfter (.str (intRepr id)) (.str name) tags)
            (.cons (.elem "meta" none (pairLeafForest meta))
              (.cons (.elem "description" (some s) .nil) .nil)) :=
      tagsBlockFold _ _ tags _
    rw [h1]
    rcases tags with _ | ⟨t1, _ | ⟨t2, tr⟩⟩ <;>
      cases meta with
      | nil =>
        simp [tagsObjAfter, xmlToDictAux, childValue, XmlTree.tag, insertTag, objGet,
          objSet, JsonObj.append, pairLeafForest, postProcessXmlFields,
          ItemModel.modelValidate, asIntLax, parseDecInt_intRepr, asStr, asStrList_single,
          asStrList_strArr, asStrPairs_strObj, asStrPairs_nil]
      | cons p pr =>
        obtain ⟨k0, v0⟩ := p
        simp only [tagsObjAfter, pairLeafForest, childValue, xmlToDictAux, XmlTree.tag,
          insertTag, objGet, objSet, JsonObj.append]
        rw [show xmlToDictAux (.cons k0 (.str v0) .nil) (pairLeafForest pr)
              = strObj ((k0, v0) :: pr) from hpair]
        simp [postProcessXmlFields, objGet, objSet, ItemModel.modelValidate, asIntLax,
          parseDecInt_intRepr, asStr, asStrList_single, asStrList_strArr,
          asStrPairs_strObj, asStrPairs_nil]

/-! ## Lemmas: serializability and end-of-line normalization of the dump -/

theorem xmlCharOk_digitChar {d : Nat} (h : d < 10) : xmlCharOk (digitChar d) = true := by
  interval_cases d <;> decide

theorem natDigitsAux_all_xmlOk {fuel n : Nat} (h : n < fuel) :
    ∀ c ∈ natDigitsAux fuel n, xmlCharOk c = true := by
  induction fuel generalizing n with
  | zero => omega
  | succ f ih =>
    simp only [natDigitsAux]
    split
    · next h10 =>
      intro c hc
      simp only [List.mem_singleton] at hc
      subst hc
      exact xmlCharOk_digitChar h10
    · next h10 =>
      intro c hc
      rcases List.mem_append.mp hc with h1 | h2
      · have hdivn : n / 10 < n := Nat.div_lt_self (by omega) (by omega)
        exact ih (by omega) c h1
      · simp only [List.mem_singleton] at h2
        subst h2
        exact xmlCharOk_digitChar (Nat.mod_lt _ (by omega))

theorem strXmlOk_intRepr (i : Int) : strXmlOk (intRepr i) = true := by
  unfold strXmlOk
  rw [List.all_eq_true]
  unfold intRepr
  split
  · rw [String.data_append]
    intro c hc
    rcases List.mem_append.mp hc with h1 | h2
    · simp only [show ("-" : String).data = ['-'] from rfl, List.mem_singleton] at h1
      subst h1
      decide
    · exact natDigitsAux_all_xmlOk (Nat.lt_succ_self _) c h2
  · intro c hc
    exact natDigitsAux_all_xmlOk (Nat.lt_succ_self _) c hc

theorem textCharOk_of_xmlCharOk {c : Char} (h : xmlCharOk c = true) :
    xmlTextCharOk c = true := by
  simp only [xmlCharOk, Bool.or_eq_true] at h
  simp only [xmlTextCharOk, Bool.or_eq_true]
  tauto

theorem textAll_of_strXmlOk {s : String} (h : strXmlOk s = true) :
    s.data.all xmlTextCharOk = true := by
  rw [List.all_eq_true]
  intro c hc
  exact textCharOk_of_xmlCharOk (List.all_eq_true.mp h c hc)

theorem xmlCharOk_ne_cr {c : Char} (h : xmlCharOk c = true) : c ≠ Char.ofNat 13 := by
  intro hc
  subst hc
  exact absurd h (by decide)

theorem normCRGo_eq_of_no_cr {l : List Char} (h : ∀ c ∈ l, c ≠ Char.ofNat 13) :
    normCRGo false l = l := by
  induction l with
  | nil => rfl
  | cons c rest ih =>
    have hc : c ≠ Char.ofNat 13 := h c (List.mem_cons_self c rest)
    have hrest : ∀ d ∈ rest, d ≠ Char.ofNat 13 := fun d hd => h d (List.mem_cons_of_mem c hd)
    unfold normCRGo
    rw [if_neg hc]
    by_cases h10 : c = Char.ofNat 10
    · rw [if_pos h10, if_neg (by decide : ¬(false = true)), ih hrest]
    · rw [if_neg h10, ih hrest]

theorem normalizeCR_of_ok {s : String} (h : strXmlOk s = true) : normalizeCR s = s := by
  unfold normalizeCR
  rw [normCRGo_eq_of_no_cr]
  intro c hc
  exact xmlCharOk_ne_cr (List.all_eq_true.mp h c hc)

theorem normalizeCR_intRepr (i : Int) : normalizeCR (intRepr i) = intRepr i :=
  normalizeCR_of_ok (strXmlOk_intRepr i)

theorem xmlNameOk_of_alpha {s : String} (hne : s.data ≠ [])
    (h : s.data.all Char.isAlpha = true) : xmlNameOk s = true := by
  unfold xmlNameOk
  cases hd : s.data with
  | nil => exact absurd hd hne
  | cons c rest =>
    rw [hd, List.all_cons, Bool.and_eq_true] at h
    obtain ⟨hc, hrest⟩ := h
    simp only [Bool.and_eq_true, Bool.or_eq_true, List.all_eq_true]
    constructor
    · exact Or.inl hc
    · intro d hdm
      exact Or.inl (Or.inl (Or.inl (by
        simp [Char.isAlphanum, List.all_eq_true.mp hrest d hdm])))

theorem serializableAll_pairLeafForest {ps : List (String × String)}
    (h : ∀ kv ∈ ps, xmlNameOk kv.1 = true ∧ strXmlOk kv.2 = true) :
    (pairLeafForest ps).serializableAll = true := by
  induction ps with
  | nil => rfl
  | cons p pr ih =>
    obtain ⟨k, v⟩ := p
    have hp := h (k, v) (List.mem_cons_self _ pr)
    simp only [pairLeafForest, XmlForest.serializableAll, XmlTree.serializable,
      Bool.and_eq_true]
    exact ⟨⟨⟨hp.1, textAll_of_strXmlOk hp.2⟩, trivial⟩,
      ih (fun kv hkv => h kv (List.mem_cons_of_mem _ hkv))⟩

theorem normCRAll_pairLeafForest {ps : List (String × String)}
    (h : ∀ kv ∈ ps, strXmlOk kv.2 = true) :
    (pairLeafForest ps).normCRAll = pairLeafForest ps := by
  induction ps with
  | nil => rfl
  | cons p pr ih =>
    obtain ⟨k, v⟩ := p
    simp only [pairLeafForest, XmlForest.normCRAll, XmlTree.normCR, Option.map]
    rw [normalizeCR_of_ok (h (k, v) (List.mem_cons_self _ pr)),
      ih (fun kv hkv => h kv (List.mem_cons_of_mem _ hkv))]

theorem serializableAll_strLeaf_append {k : String} (hk : xmlNameOk k = true)
    {ts : List String} (h : ∀ t ∈ ts, strXmlOk t = true) {f : XmlForest}
    (hf : f.serializableAll = true) :
    ((strLeafForest k ts).append f).serializableAll = true := by
  induction ts with
  | nil => simpa [strLeafForest, XmlForest.append] using hf
  | cons t rest ih =>
    simp only [strLeafForest, XmlForest.append, XmlForest.serializableAll,
      XmlTree.serializable, Bool.and_eq_true]
    exact ⟨⟨⟨hk, textAll_of_strXmlOk (h t (List.mem_cons_self t rest))⟩, trivial⟩,
      ih (fun x hx => h x (List.mem_cons_of_mem t hx))⟩

theorem normCRAll_strLeaf_append (k : String) {ts : List String}
    (h : ∀ t ∈ ts, strXmlOk t = true) {f : XmlForest}
    (hf : f.normCRAll = f) :
    ((strLeafForest k ts).append f).normCRAll = (strLeafForest k ts).append f := by
  induction ts with
  | nil => simpa [strLeafForest, XmlForest.append] using hf
  | cons t rest ih =>
    simp only [strLeafForest, XmlForest.append, XmlForest.normCRAll, XmlTree.normCR,
      Option.map]
    rw [normalizeCR_of_ok (h t (List.mem_cons_self t rest)),
      ih (fun x hx => h x (List.mem_cons_of_mem t hx))]

theorem buildXml_shape_none {id : Int} {name : String} {tags : List String}
    {meta : List (String × String)} (hname : name ≠ "")
    (htags : ∀ t ∈ tags, t ≠ "") (hmv : ∀ kv ∈ meta, kv.2 ≠ "") :
    buildXmlDoc (ItemModel.modelDump ⟨id, name, tags, meta, none⟩ true)
      = .elem "ItemModel" none
          (.cons (.elem "id" (some (intRepr id)) .nil)
            (.cons (.elem "name" (some name) .nil)
              ((strLeafForest "tags" tags).append
                (.cons (.elem "meta" none (pairLeafForest meta)) .nil)))) := by
  simp only [ItemModel.modelDump, JsonObj.append, buildXmlDoc, dictToXml, keyNodes,
    XmlForest.append, pyStr, normText_intRepr, normText_of_ne hname,
    listNodes_strArr _ htags, dictToXml_strObj hmv]

theorem buildXml_shape_some {id : Int} {name s : String} {tags : List String}
    {meta : List (String × String)} (hname : name ≠ "") (hs : s ≠ "")
    (htags : ∀ t ∈ tags, t ≠ "") (hmv : ∀ kv ∈ meta, kv.2 ≠ "") :
    buildXmlDoc (ItemModel.modelDump ⟨id, name, tags, meta, some s⟩ true)
      = .elem "ItemModel" none
          (.cons (.elem "id" (some (intRepr id)) .nil)
            (.cons (.elem "name" (some name) .nil)
              ((strLeafForest "tags" tags).append
                (.cons (.elem "meta" none (pairLeafForest meta))
                  (.cons (.elem "description" (some s) .nil) .nil))))) := by
  simp only [ItemModel.modelDump, JsonObj.append, buildXmlDoc, dictToXml, keyNodes,
    XmlForest.append, pyStr, normText_intRepr, normText_of_ne hname,
    normText_of_ne hs, listNodes_strArr _ htags, dictToXml_strObj hmv]

theorem serializable_of_roundSafe (e : ItemModel) (hx : xmlRoundSafe e) :
    (buildXmlDoc (e.modelDump true)).serializable = true := by
  obtain ⟨hxs, hnameOk, htagsOk, hmetaOk, hdescOk⟩ := hx
  obtain ⟨id, name, tags, meta, desc⟩ := e
  obtain ⟨hname, htags, hnodup, hmeta, hdesc⟩ := hxs
  simp only at hname htags hnodup hmeta hdesc hnameOk htagsOk hmetaOk hdescOk
  have hmv : ∀ kv ∈ meta, kv.2 ≠ "" := fun kv hkv => (hmeta kv hkv).2.2
  have hmetaSer : (pairLeafForest meta).serializableAll = true :=
    serializableAll_pairLeafForest (fun kv hkv =>
      ⟨xmlNameOk_of_alpha (hmeta kv hkv).1 (hmeta kv hkv).2.1, hmetaOk kv hkv⟩)
  have hmetaName : xmlNameOk "meta" = true := by decide
  have hrootName : xmlNameOk "ItemModel" = true := by decide
  have hidName : xmlNameOk "id" = true := by decide
  have hnameName : xmlNameOk "name" = true := by decide
  have htagName : xmlNameOk "tags" = true := by decide
  have hidText : (intRepr id).data.all xmlTextCharOk = true :=
    textAll_of_strXmlOk (strXmlOk_intRepr id)
  have hnameText : name.data.all xmlTextCharOk = true := textAll_of_strXmlOk hnameOk
  cases desc with
  | none =>
    have htail : (XmlForest.cons (.elem "meta" none (pairLeafForest meta))
        .nil).serializableAll = true := by
      simp [XmlForest.serializableAll, XmlTree.serializable, hmetaSer, hmetaName]
    have happ := serializableAll_strLeaf_append htagName htagsOk htail
    rw [buildXml_shape_none hname htags hmv]
    simp [XmlTree.serializable, XmlForest.serializableAll, hrootName, hidName,
      hnameName, hidText, hnameText, happ]
  | some s =>
    have hs : s ≠ "" := fun h => hdesc (by rw [h])
    have hsOk : strXmlOk s = true := by simpa [Option.all] using hdescOk
    have hdescName : xmlNameOk "description" = true := by decide
    have htail : (XmlForest.cons (.elem "meta" none (pairLeafForest meta))
        (.cons (.elem "description" (some s) .nil) .nil)).serializableAll = true := by
      simp [XmlForest.serializableAll, XmlTree.serializable, hmetaSer, hmetaName,
        hdescName, textAll_of_strXmlOk hsOk]
    have happ := serializableAll_strLeaf_append htagName htagsOk htail
    rw [buildXml_shape_some hname hs htags hmv]
    simp [XmlTree.serializable, XmlForest.serializableAll, hrootName, hidName,
      hnameName, hidText, hnameText, happ]

theorem normCR_of_roundSafe (e : ItemModel) (hx : xmlRoundSafe e) :
    (buildXmlDoc (e.modelDump true)).normCR = buildXmlDoc (e.modelDump true) := by
  obtain ⟨hxs, hnameOk, htagsOk, hmetaOk, hdescOk⟩ := hx
  obtain ⟨id, name, tags, meta, desc⟩ := e
  obtain ⟨hname, htags, hnodup, hmeta, hdesc⟩ := hxs
  simp only at hname htags hnodup hmeta hdesc hnameOk htagsOk hmetaOk hdescOk
  have hmv : ∀ kv ∈ meta, kv.2 ≠ "" := fun kv hkv => (hmeta kv hkv).2.2
  have hmetaNorm : (pairLeafForest meta).normCRAll = pairLeafForest meta :=
    normCRAll_pairLeafForest hmetaOk
  cases desc with
  | none =>
    have htail : (XmlForest.cons (.elem "meta" none (pairLeafForest meta))
        .nil).normCRAll = .cons (.elem "meta" none (pairLeafForest meta)) .nil := by
      simp [XmlForest.normCRAll, XmlTree.normCR, Option.map, hmetaNorm]
    have happ := normCRAll_strLeaf_append "tags" htagsOk htail
    rw [buildXml_shape_none hname htags hmv]
    simp [XmlTree.normCR, XmlForest.normCRAll, Option.map, happ,
      normalizeCR_intRepr, normalizeCR_of_ok hnameOk]
  | some s =>
    have hs : s ≠ "" := fun h => hdesc (by rw [h])
    have hsOk : strXmlOk s = true := by simpa [Option.all] using hdescOk
    have htail : (XmlForest.cons (.elem "meta" none (pairLeafForest meta))
          (.cons (.elem "description" (some s) .nil) .nil)).normCRAll
        = .cons (.elem "meta" none (pairLeafForest meta))
            (.cons (.elem "description" (some s) .nil) .nil) := by
      simp [XmlForest.normCRAll, XmlTree.normCR, Option.map, hmetaNorm,
        normalizeCR_of_ok hsOk]
    have happ := normCRAll_strLeaf_append "tags" htagsOk htail
    rw [buildXml_shape_some hname hs htags hmv]
    simp [XmlTree.normCR, XmlForest.normCRAll, Option.map, happ,
      normalizeCR_intRepr, normalizeCR_of_ok hnameOk]

/-! ## Lemmas: save then load round trips -/

theorem save_empty_json (st : FileStorage) (e : ItemModel) (i : Int) :
    FileStorage.save st [] e i (some "json")
      = { result := .ok (entityFileName i "json"),
          dir := [(entityFileName i "json", .jsonData (e.modelDump false))] } := by
  simp [FileStorage.save, pyOrDefault, saveResolved, saveDir1, findEntityFile_nil, dirWrite]

theorem save_empty_md (st : FileStorage) (e : ItemModel) (i : Int) :
    FileStorage.save st [] e i (some "md")
      = { result := .ok (entityFileName i "md"),
          dir := [(entityFileName i "md", .mdData (e.modelDump false))] } := by
  simp [FileStorage.save, pyOrDefault, saveResolved, saveDir1, findEntityFile_nil, dirWrite]

theorem save_empty_xml (st : FileStorage) (e : ItemModel) (i : Int)
    (hser : (buildXmlDoc (e.modelDump true)).serializable = true) :
    FileStorage.save st [] e i (some "xml")
      = { result := .ok (entityFileName i "xml"),
          dir := [(entityFileName i "xml",
            .xmlData ((buildXmlDoc (e.modelDump true)).normCR))] } := by
  simp [FileStorage.save, pyOrDefault, saveResolved, saveDir1, findEntityFile_nil, dirWrite, hser]

theorem save_empty_xml_fails (st : FileStorage) (e : ItemModel) (i : Int)
    (hser : (buildXmlDoc (e.modelDump true)).serializable = false) :
    FileStorage.save st [] e i (some "xml")
      = { result := .error PyErr.expatError, dir := [] } := by
  simp [FileStorage.save, pyOrDefault, saveResolved, saveDir1, findEntityFile_nil, dirWrite, hser]

theorem entityFileName_ne {ext1 ext2 : String} (i : Int) (h : ext1 ≠ ext2) :
    entityFileName i ext1 ≠ entityFileName i ext2 :=
  fun hh => h (entityFileName_inj_ext i hh)

theorem load_of_find {dir : Dir} {i : Int} {nm : String} {fd : FileData}
    (hfind : findEntityFile dir i = some (nm, fd)) :
    FileStorage.load dir i = loadFound nm fd := by
  unfold FileStorage.load
  rw [hfind]

theorem load_single_json (e : ItemModel) (i : Int) :
    FileStorage.load [(entityFileName i "json", .jsonData (e.modelDump false))] i
      = .ok (some e) := by
  have hfind : findEntityFile [(entityFileName i "json", .jsonData (e.modelDump false))] i
      = some (entityFileName i "json", .jsonData (e.modelDump false)) := by
    simp [findEntityFile, findEntityFile.go, dirLookup]
  rw [load_of_find hfind]
  unfold loadFound
  rw [lstripDots_pySuffix_entityFileName i (by decide) (by decide)]
  simp [validateLoaded, loadJsonFile, validatedResult, validate_modelDump]

theorem load_single_md (e : ItemModel) (i : Int)
    (hTD : jsonHasTripleDash (e.modelDump false) = false) :
    FileStorage.load [(entityFileName i "md", .mdData (e.modelDump false))] i
      = .ok (some e) := by
  have hne1 : ¬(entityFileName i "md" = entityFileName i "json") :=
    entityFileName_ne i (by decide)
  have hne2 : ¬(entityFileName i "md" = entityFileName i "xml") :=
    entityFileName_ne i (by decide)
  have hfind : findEntityFile [(entityFileName i "md", .mdData (e.modelDump false))] i
      = some (entityFileName i "md", .mdData (e.modelDump false)) := by
    simp [findEntityFile, findEntityFile.go, dirLookup, hne1, hne2]
  rw [load_of_find hfind]
  unfold loadFound
  rw [lstripDots_pySuffix_entityFileName i (by decide) (by decide)]
  simp [validateLoaded, loadMarkdownFile, hTD, validatedResult, validate_modelDump]

theorem load_single_xml (e : ItemModel) (i : Int) (hx : xmlSafe e) :
    FileStorage.load
        [(entityFileName i "xml", .xmlData (buildXmlDoc (e.modelDump true)))] i
      = .ok (some e) := by
  have hne1 : ¬(entityFileName i "xml" = entityFileName i "json") :=
    entityFileName_ne i (by decide)
  have hfind : findEntityFile
        [(entityFileName i "xml", .xmlData (buildXmlDoc (e.modelDump true)))] i
      = some (entityFileName i "xml", .xmlData (buildXmlDoc (e.modelDump true))) := by
    simp [findEntityFile, findEntityFile.go, dirLookup, hne1]
  rw [load_of_find hfind]
  unfold loadFound
  rw [lstripDots_pySuffix_entityFileName i (by decide) (by decide)]
  simp [validateLoaded, loadXmlFile, validatedResult, validate_loadXml_dump e hx]

/-! ## Lemmas: sorting by id -/

theorem insertById_mem {e x : ItemModel} {l : List ItemModel} (hx : x ∈ insertById e l) :
    x = e ∨ x ∈ l := by
  induction l with
  | nil => simpa [insertById] using hx
  | cons y ys ih =>
    unfold insertById at hx
    by_cases hcmp : e.id ≤ y.id
    · rw [if_pos hcmp, List.mem_cons] at hx
      rcases hx with rfl | hx
      · exact Or.inl rfl
      · exact Or.inr hx
    · rw [if_neg hcmp, List.mem_cons] at hx
      rcases hx with rfl | hx
      · exact Or.inr (by simp)
      · rcases ih hx with h1 | h2
        · exact Or.inl h1
        · exact Or.inr (by simp [h2])

theorem pairwise_insertById {e : ItemModel} {l : List ItemModel}
    (h : List.Pairwise (fun a b => a.id ≤ b.id) l) :
    List.Pairwise (fun a b => a.id ≤ b.id) (insertById e l) := by
  induction l with
  | nil => simp [insertById]
  | cons x xs ih =>
    rw [List.pairwise_cons] at h
    unfold insertById
    by_cases hcmp : e.id ≤ x.id
    · rw [if_pos hcmp, List.pairwise_cons]
      refine ⟨?_, List.pairwise_cons.mpr h⟩
      intro y hy
      rw [List.mem_cons] at hy
      rcases hy with rfl | hy
      · exact hcmp
      · exact le_trans hcmp (h.1 y hy)
    · rw [if_neg hcmp, List.pairwise_cons]
      refine ⟨?_, ih h.2⟩
      intro y hy
      rcases insertById_mem hy with rfl | hy2
      · omega
      · exact h.1 y hy2

theorem pairwise_sortById (l : List ItemModel) :
    List.Pairwise (fun a b => a.id ≤ b.id) (sortById l) := by
  induction l with
  | nil => simp [sortById]
  | cons x xs ih => exact pairwise_insertById ih

theorem pairwise_slice {l : List ItemModel} (skip limit : Nat)
    (h : List.Pairwise (fun a b => a.id ≤ b.id) l) :
    List.Pairwise (fun a b => a.id ≤ b.id) ((l.drop skip).take limit) :=
  List.Pairwise.sublist ((List.take_sublist _ _).trans (List.drop_sublist _ _)) h

/-! ## Lemmas: the memory backend invariant -/


theorem memInv_fresh : memInv MemoryRepo.fresh := by
  constructor <;> simp [MemoryRepo.fresh]

theorem dictSet_fresh {l : List (Int × ItemModel)} {k : Int} (v : ItemModel)
    (h : ∀ kv ∈ l, kv.1 ≠ k) : dictSet l k v = l ++ [(k, v)] := by
  induction l with
  | nil => rfl
  | cons p rest ih =>
    obtain ⟨k0, v0⟩ := p
    have hk : k0 ≠ k := h (k0, v0) (by simp)
    simp only [dictSet, if_neg hk, List.cons_append]
    rw [ih (fun kv hkv => h kv (by simp [hkv]))]

theorem mem_dictSet {l : List (Int × ItemModel)} {k : Int} {v : ItemModel} {kv : Int × ItemModel}
    (h : kv ∈ dictSet l k v) : kv = (k, v) ∨ kv ∈ l := by
  induction l with
  | nil => simpa [dictSet] using h
  | cons p rest ih =>
    obtain ⟨k0, v0⟩ := p
    unfold dictSet at h
    by_cases hk : k0 = k
    · subst hk
      rw [if_pos rfl, List.mem_cons] at h
      rcases h with rfl | h
      · exact Or.inl rfl
      · exact Or.inr (List.mem_cons_of_mem _ h)
    · rw [if_neg hk, List.mem_cons] at h
      rcases h with rfl | h
      · exact Or.inr (List.mem_cons_self _ _)
      · rcases ih h with h1 | h2
        · exact Or.inl h1
        · exact Or.inr (List.mem_cons_of_mem _ h2)

theorem dictSet_map_fst_of_mem {l : List (Int × ItemModel)} {k : Int} (v : ItemModel)
    (h : k ∈ l.map Prod.fst) : (dictSet l k v).map Prod.fst = l.map Prod.fst := by
  induction l with
  | nil => simp at h
  | cons p rest ih =>
    obtain ⟨k0, v0⟩ := p
    by_cases hk : k0 = k
    · simp [dictSet, hk]
    · have h2 : k ∈ rest.map Prod.fst := by
        rcases List.mem_map.mp h with ⟨kv, hkv, hfst⟩
        rw [List.mem_cons] at hkv
        rcases hkv with rfl | hkv
        · exact absurd hfst hk
        · exact hfst ▸ List.mem_map_of_mem _ hkv
      simp [dictSet, hk, ih h2]

theorem dictGet_mem {l : List (Int × ItemModel)} {k : Int} {v : ItemModel}
    (h : dictGet l k = some v) : (k, v) ∈ l := by
  induction l with
  | nil => simp [dictGet] at h
  | cons p rest ih =>
    obtain ⟨k0, v0⟩ := p
    unfold dictGet at h
    by_cases hk : k0 = k
    · rw [if_pos hk] at h
      simp only [Option.some.injEq] at h
      subst hk; subst h
      simp
    · rw [if_neg hk] at h
      exact List.mem_cons_of_mem _ (ih h)

theorem memInv_applyOp {r : MemoryRepo} (op : MemOp) (h : memInv r) :
    memInv (r.applyOp op) := by
  obtain ⟨hkv, hpw⟩ := h
  cases op with
  | create d =>
    have hfresh : ∀ kv ∈ r.storage, kv.1 ≠ r.nextId :=
      fun kv hm => ne_of_lt (hkv kv hm).2
    have hstep : r.applyOp (.create d)
        = { storage := dictSet r.storage r.nextId (d.withId r.nextId),
            nextId := r.nextId + 1 } := rfl
    rw [hstep]
    constructor
    · intro kv hm
      have hm2 : kv ∈ dictSet r.storage r.nextId (d.withId r.nextId) := hm
      rw [dictSet_fresh _ hfresh] at hm2
      rcases List.mem_append.mp hm2 with h1 | h2
      · refine ⟨(hkv kv h1).1, ?_⟩
        have h3 := (hkv kv h1).2
        show kv.1 < r.nextId + 1
        omega
      · simp only [List.mem_singleton] at h2
        subst h2
        refine ⟨rfl, ?_⟩
        show r.nextId < r.nextId + 1
        omega
    · show List.Pairwise _ (dictSet r.storage r.nextId (d.withId r.nextId))
      rw [dictSet_fresh _ hfresh, List.pairwise_append]
      refine ⟨hpw, by simp, ?_⟩
      intro a ha b hb
      simp only [List.mem_singleton] at hb
      subst hb
      exact (hkv a ha).2
  | update e =>
    by_cases hmem : (dictGet r.storage e.id).isSome
    · have hupd : r.update e = .ok { r with storage := dictSet r.storage e.id e } := by
        unfold MemoryRepo.update
        rw [if_pos hmem]
      have hstep : r.applyOp (.update e) = { r with storage := dictSet r.storage e.id e } := by
        show (match r.update e with | .ok r1 => r1 | .error _ => r)
          = { r with storage := dictSet r.storage e.id e }
        rw [hupd]
      rw [hstep]
      rcases Option.isSome_iff_exists.mp hmem with ⟨v0, hv0⟩
      have hkmem : (e.id, v0) ∈ r.storage := dictGet_mem hv0
      have hkin : e.id ∈ r.storage.map Prod.fst := List.mem_map_of_mem _ hkmem
      constructor
      · intro kv hm
        have hm2 : kv ∈ dictSet r.storage e.id e := hm
        rcases mem_dictSet hm2 with h1 | h2
        · subst h1
          exact ⟨rfl, (hkv _ hkmem).2⟩
        · exact hkv kv h2
      · show List.Pairwise (fun a b => a.1 < b.1) (dictSet r.storage e.id e)
        have hfst := @dictSet_map_fst_of_mem r.storage e.id e hkin
        have hp1 : (r.storage.map Prod.fst).Pairwise (· < ·) := List.pairwise_map.mpr hpw
        have hp2 : ((dictSet r.storage e.id e).map Prod.fst).Pairwise (· < ·) := by
          rw [hfst]; exact hp1
        exact List.pairwise_map.mp hp2
    · have hupd : r.update e
          = .error (.valueError ("Client " ++ intRepr e.id ++ " not found")) := by
        unfold MemoryRepo.update
        rw [if_neg hmem]
      have hstep : r.applyOp (.update e) = r := by
        show (match r.update e with | .ok r1 => r1 | .error _ => r) = r
        rw [hupd]
      rw [hstep]
      exact ⟨hkv, hpw⟩
  | delete i =>
    by_cases hmem : (dictGet r.storage i).isSome
    · have hdel : r.delete i
          = (true, { r with storage := r.storage.filter (fun kv => kv.1 ≠ i) }) := by
        unfold MemoryRepo.delete
        rw [if_pos hmem]
      have hstep : r.applyOp (.delete i)
          = { r with storage := r.storage.filter (fun kv => kv.1 ≠ i) } := by
        show (r.delete i).2 = _
        rw [hdel]
      rw [hstep]
      constructor
      · intro kv hm
        have hm2 : kv ∈ r.storage.filter (fun kv => kv.1 ≠ i) := hm
        exact hkv kv (List.mem_of_mem_filter hm2)
      · show List.Pairwise _ (r.storage.filter (fun kv => kv.1 ≠ i))
        exact List.Pairwise.sublist (List.filter_sublist _) hpw
    · have hdel : r.delete i = (false, r) := by
        unfold MemoryRepo.delete
        rw [if_neg hmem]
      have hstep : r.applyOp (.delete i) = r := by
        show (r.delete i).2 = _
        rw [hdel]
      rw [hstep]
      exact ⟨hkv, hpw⟩

theorem memInv_runOps (ops : List MemOp) :
    ∀ r : MemoryRepo, memInv r → memInv (r.runOps ops) := by
  induction ops with
  | nil => intro r h; exact h
  | cons op rest ih =>
    intro r h
    exact ih _ (memInv_applyOp op h)

theorem memGetAll_pairwise {r : MemoryRepo} (h : memInv r) (skip limit : Nat) :
    List.Pairwise (fun a b => a.id ≤ b.id) (r.getAll skip limit) := by
  obtain ⟨hkv, hpw⟩ := h
  have h1 : List.Pairwise (fun a b : Int × ItemModel => a.2.id ≤ b.2.id) r.storage := by
    refine hpw.imp_of_mem ?_
    intro a b ha hb hlt
    rw [(hkv a ha).1, (hkv b hb).1]
    omega
  have h2 : List.Pairwise (fun a b : ItemModel => a.id ≤ b.id) (r.storage.map Prod.snd) := by
    rw [List.pairwise_map]
    exact h1
  unfold MemoryRepo.getAll
  exact List.Pairwise.sublist ((List.take_sublist _ _).trans (List.drop_sublist _ _)) h2

/-! ## Lemmas: registry lookup -/

theorem registryGet_append (reg : Registry) (k : String) (c : PluginClass) (n : String) :
    registryGet (reg ++ [(k, c)]) n
      = match registryGet reg n with
        | some c0 => some c0
        | none => if k = n then some c else none := by
  induction reg with
  | nil => rfl
  | cons e rest ih =>
    obtain ⟨k0, c0⟩ := e
    by_cases h : k0 = n
    · simp [registryGet, h]
    · simp only [List.cons_append, registryGet, if_neg h]
      exact ih

/-! ## The ID-allocation session machinery (for the monotonicity claim) -/


theorem loadMeta_saveMeta (st : FileStorage) (dir : Dir) :
    loadMeta (saveMeta st dir) = .ok st.nextId := by
  unfold loadMeta saveMeta
  rw [dirLookup_dirWrite_self]
  simp [objGet]

theorem intRange_succ (s : Int) (k : Nat) : intRange s (k + 1) = s :: intRange (s + 1) k := by
  unfold intRange
  rw [List.range_succ_eq_map, List.map_cons, List.map_map]
  refine congrArg₂ List.cons (by simp) ?_
  apply List.map_congr_left
  intro j _
  show s + ((j + 1 : Nat) : Int) = (s + 1) + (j : Int)
  push_cast
  ring

theorem runCalls_spec (k : Nat) : ∀ (st : FileStorage) (dir : Dir),
    loadMeta dir = .ok st.nextId →
    (runCalls st dir k).1 = intRange st.nextId k ∧
    (runCalls st dir k).2.1.nextId = st.nextId + k ∧
    (runCalls st dir k).2.1.defaultFormat = st.defaultFormat ∧
    loadMeta (runCalls st dir k).2.2 = .ok (st.nextId + k) := by
  induction k with
  | zero =>
    intro st dir h
    refine ⟨rfl, by simp [runCalls], rfl, by simpa using h⟩
  | succ k ih =>
    intro st dir h
    have hmeta : loadMeta (saveMeta { st with nextId := st.nextId + 1 } dir)
        = .ok (st.nextId + 1) := loadMeta_saveMeta _ _
    have hih := ih { st with nextId := st.nextId + 1 }
      (saveMeta { st with nextId := st.nextId + 1 } dir) hmeta
    simp only [runCalls, FileStorage.getNextId]
    refine ⟨?_, ?_, ?_, ?_⟩
    · rw [intRange_succ]
      rw [hih.1]
    · rw [hih.2.1]
      push_cast
      ring
    · exact hih.2.2.1
    · rw [hih.2.2.2]
      congr 1
      push_cast
      ring

theorem intRange_append (s : Int) (a b : Nat) :
    intRange s a ++ intRange (s + (a : Int)) b = intRange s (a + b) := by
  unfold intRange
  rw [List.range_add, List.map_append, List.map_map]
  congr 1
  apply List.map_congr_left
  intro j _
  show s + (a : Int) + (j : Int) = s + ((a + j : Nat) : Int)
  push_cast
  ring

theorem runSessions_cons {fmt : String} {dir : Dir} (k : Nat) (sched : List Nat)
    {st : FileStorage} (hc : FileStorage.construct fmt dir = .ok st) :
    runSessions fmt dir (k :: sched)
      = match runSessions fmt (runCalls st dir k).2.2 sched with
        | .error err => .error err
        | .ok rest => .ok ((runCalls st dir k).1 ++ rest.1, rest.2) := by
  show ((match FileStorage.construct fmt dir with
    | Except.error err => Except.error err
    | Except.ok st =>
      match runSessions fmt (runCalls st dir k).2.2 sched with
      | Except.error err => Except.error err
      | Except.ok rest =>
        Except.ok ((runCalls st dir k).1 ++ rest.1, rest.2)) :
      Except PyErr (List Int × Dir)) = _
  rw [hc]

theorem runSessions_spec (sched : List Nat) : ∀ (dir : Dir) (n : Int),
    loadMeta dir = .ok n →
    ∃ dir2, runSessions "json" dir sched = .ok (intRange n sched.sum, dir2) ∧
      loadMeta dir2 = .ok (n + (sched.sum : Int)) := by
  induction sched with
  | nil =>
    intro dir n h
    exact ⟨dir, by simp [runSessions, intRange], by simpa using h⟩
  | cons k rest ih =>
    intro dir n h
    have hcon : FileStorage.construct "json" dir
        = .ok { defaultFormat := "json", nextId := n } := by
      unfold FileStorage.construct
      rw [h]
      rfl
    have hrc := runCalls_spec k { defaultFormat := "json", nextId := n } dir (by simpa using h)
    obtain ⟨ids_eq, _, _, hmeta⟩ := hrc
    obtain ⟨dir2, hrun, hmeta2⟩ :=
      ih (runCalls { defaultFormat := "json", nextId := n } dir k).2.2 (n + (k : Int))
        (by simpa using hmeta)
    refine ⟨dir2, ?_, ?_⟩
    · rw [runSessions_cons k rest hcon, hrun, ids_eq]
      show Except.ok (intRange n k ++ intRange (n + (k : Int)) rest.sum, dir2) = _
      rw [intRange_append]
      rw [show (k :: rest).sum = k + rest.sum from List.sum_cons]
    · have hsum : n + (((k :: rest).sum : Nat) : Int) = n + (k : Int) + (rest.sum : Int) := by
        rw [List.sum_cons]
        push_cast
        ring
      rw [hsum]
      exact hmeta2

theorem intRange_nodup (s : Int) (n : Nat) : (intRange s n).Nodup := by
  unfold intRange
  refine List.Nodup.map ?_ (List.nodup_range n)
  intro a b hab
  have h2 : s + (a : Int) = s + (b : Int) := hab
  omega

/-! ## Lemmas: what a resolved save writes and deletes -/

theorem saveResolved_dir_shape (dir : Dir) (e : ItemModel) (i : Int) (fmt : String) :
    (saveResolved dir e i fmt).dir = saveDir1 dir i fmt ∨
    ∃ fdata, (saveResolved dir e i fmt).dir
      = dirWrite (saveDir1 dir i fmt) (entityFileName i fmt) fdata := by
  unfold saveResolved
  split_ifs <;> first | (left; rfl) | (right; exact ⟨_, rfl⟩)

theorem saveDir1_of_other_ext {dir : Dir} {i : Int} {nm : String} {fd : FileData} {ext : String}
    (fmt : String) (hfind : findEntityFile dir i = some (nm, fd))
    (hnm : nm = entityFileName i ext)
    (hsufeq : lstripDots (pySuffix (entityFileName i ext)) = ext)
    (hsuf : ext ≠ fmt) :
    saveDir1 dir i fmt = dirRemove dir (entityFileName i ext) := by
  subst hnm
  unfold saveDir1
  rw [hfind]
  show (if lstripDots (pySuffix (entityFileName i ext)) ≠ fmt
      then dirRemove dir (entityFileName i ext) else dir)
    = dirRemove dir (entityFileName i ext)
  rw [hsufeq, if_pos hsuf]

theorem saveResolved_deletes (dir : Dir) (e : ItemModel) (i : Int) (fmt : String) :
    ∀ nm fd, findEntityFile dir i = some (nm, fd) →
      lstripDots (pySuffix nm) ≠ fmt →
      dirLookup (saveResolved dir e i fmt).dir nm = none := by
  intro nm fd hfind hsuf
  obtain ⟨ext, hmem, hnm, hlook⟩ := findEntityFile_some hfind
  subst hnm
  have hext := supportedExts_ok ext hmem
  have hsufeq : lstripDots (pySuffix (entityFileName i ext)) = ext :=
    lstripDots_pySuffix_entityFileName i hext.1 hext.2
  rw [hsufeq] at hsuf
  have hne : entityFileName i ext ≠ entityFileName i fmt := entityFileName_ne i hsuf
  have hd1 := saveDir1_of_other_ext fmt hfind rfl hsufeq hsuf
  rcases saveResolved_dir_shape dir e i fmt with hdir | ⟨fdata, hdir⟩
  · rw [hdir, hd1]
    exact dirLookup_dirRemove_self dir _
  · rw [hdir, dirLookup_dirWrite_ne _ hne, hd1]
    exact dirLookup_dirRemove_self dir _

theorem saveResolved_writes {dir : Dir} {e : ItemModel} {i : Int} {fmt : String}
    (fdata : FileData)
    (hres : (saveResolved dir e i fmt).result = .ok (entityFileName i fmt))
    (hdir : (saveResolved dir e i fmt).dir
      = dirWrite (saveDir1 dir i fmt) (entityFileName i fmt) fdata) :
    (saveResolved dir e i fmt).result = .ok (entityFileName i fmt) ∧
    (dirLookup (saveResolved dir e i fmt).dir (entityFileName i fmt)).isSome = true := by
  refine ⟨hres, ?_⟩
  rw [hdir, dirLookup_dirWrite_self]
  rfl

theorem saveResolved_known {dir : Dir} (e : ItemModel) (i : Int) {fmt : String}
    (hfmt : fmt = "json" ∨ fmt = "md" ∨
      (fmt = "xml" ∧ (buildXmlDoc (e.modelDump true)).serializable = true)) :
    (saveResolved dir e i fmt).result = .ok (entityFileName i fmt) ∧
    (dirLookup (saveResolved dir e i fmt).dir (entityFileName i fmt)).isSome = true := by
  rcases hfmt with rfl | rfl | ⟨rfl, hser⟩
  · exact saveResolved_writes (.jsonData (e.modelDump false))
      (by simp [saveResolved]) (by simp [saveResolved])
  · exact saveResolved_writes (.mdData (e.modelDump false))
      (by simp [saveResolved]) (by simp [saveResolved])
  · exact saveResolved_writes (.xmlData ((buildXmlDoc (e.modelDump true)).normCR))
      (by simp [saveResolved, hser]) (by simp [saveResolved, hser])

theorem saveResolved_xml_fails {dir : Dir} {e : ItemModel} {i : Int}
    (hser : (buildXmlDoc (e.modelDump true)).serializable = false) :
    (saveResolved dir e i "xml").result = .error PyErr.expatError := by
  simp [saveResolved, hser]

/-! ## Lemmas: a corrupt single-file directory never loads an entity -/

theorem load_corrupt_single (nm : String) (j : Int) :
    ∀ e : ItemModel, FileStorage.load [(nm, FileData.corruptText)] j ≠ .ok (some e) := by
  intro e
  unfold FileStorage.load
  cases hf : findEntityFile [(nm, FileData.corruptText)] j with
  | none => simp
  | some pfd =>
    obtain ⟨nm2, fd2⟩ := pfd
    obtain ⟨ext, hmem, hnm2, hlook⟩ := findEntityFile_some hf
    subst hnm2
    have hfd : fd2 = FileData.corruptText := by
      unfold dirLookup at hlook
      split at hlook
      · exact (Option.some.injEq _ _ ▸ hlook).symm
      · simp [dirLookup] at hlook
    subst hfd
    show loadFound (entityFileName j ext) FileData.corruptText ≠ .ok (some e)
    unfold loadFound
    split <;> simp [validateLoaded, loadJsonFile, loadMarkdownFile, loadXmlFile]

/-! ## Lemmas: the factory once the registration fold has run -/

theorem construct_resolved {flag : Bool} {importable : List PluginClass} {reg reg1 : Registry}
    (hens : ensureBackendsRegistered flag importable reg = .ok reg1) (backend : String) :
    RepositoryFactory.construct flag importable reg backend
      = match registryGet reg1 backend with
        | none =>
          (.error (.unknownBackend { backend := backend, available := registryList reg1 }), [])
        | some c =>
          (.ok { plugin := c }, [.pluginConstructed c.clsName, .pluginInitCalled c.clsName]) := by
  unfold RepositoryFactory.construct
  rw [hens]

/-! ## The claims -/

/-- C1.  Corrected: `save(entity, id)` with no requested format does not
preserve the existing document's format; it resolves the format to the
store's configured default whatever the existing document used, and deletes
an existing document for the ID whose extension differs from that default
(unconditionally — the delete survives even a failing save).  The new
default-format file is then written whenever the default is `json` or `md`,
or is `xml` and the dump serializes; with an `xml` default and a dump that
does not serialize to well-formed XML, `_save_xml` raises `ExpatError`
after the delete, writing nothing. -/
theorem c1_save_uses_default_format (st : FileStorage) (dir : Dir) (e : ItemModel) (i : Int) :
    (∀ nm fd, findEntityFile dir i = some (nm, fd) →
      lstripDots (pySuffix nm) ≠ st.defaultFormat →
      dirLookup (FileStorage.save st dir e i none).dir nm = none) ∧
    ((st.defaultFormat = "json" ∨ st.defaultFormat = "md" ∨
        (st.defaultFormat = "xml" ∧ (buildXmlDoc (e.modelDump true)).serializable = true)) →
      (FileStorage.save st dir e i none).result = .ok (entityFileName i st.defaultFormat) ∧
      (dirLookup (FileStorage.save st dir e i none).dir
        (entityFileName i st.defaultFormat)).isSome = true) ∧
    (st.defaultFormat = "xml" → (buildXmlDoc (e.modelDump true)).serializable = false →
      (FileStorage.save st dir e i none).result = .error PyErr.expatError) := by
  have hsave : FileStorage.save st dir e i none = saveResolved dir e i st.defaultFormat := rfl
  refine ⟨?_, ?_, ?_⟩
  · intro nm fd hfind hsuf
    rw [hsave]
    exact saveResolved_deletes dir e i st.defaultFormat nm fd hfind hsuf
  · intro h
    rw [hsave]
    exact saveResolved_known e i h
  · intro hx hser
    rw [hsave, hx]
    exact saveResolved_xml_fails hser

/-- C1 witness: on a concrete `json`-default store holding `1.md`, the
no-format save returns the default-format path. -/
theorem c1_save_uses_default_format_witness :
    (FileStorage.save { defaultFormat := "json", nextId := 2 }
        [("1.md", FileData.mdData (sampleItem.modelDump false))] sampleItem 1 none).result
      = .ok (entityFileName 1 "json") :=
  ((c1_save_uses_default_format { defaultFormat := "json", nextId := 2 }
    [("1.md", FileData.mdData (sampleItem.modelDump false))] sampleItem 1).2.1 (Or.inl rfl)).1

/-- C1 counterexample: a store whose default is `json` holds the document
`1.md`; `save(entity, 1)` with no requested format writes `1.json` and
deletes `1.md`, instead of writing the document back as markdown. -/
theorem c1_counterexample_md_not_preserved :
    (FileStorage.save { defaultFormat := "json", nextId := 2 }
        [("1.md", FileData.mdData (sampleItem.modelDump false))] sampleItem 1 none).result
      = .ok "1.json" ∧
    dirLookup (FileStorage.save { defaultFormat := "json", nextId := 2 }
        [("1.md", FileData.mdData (sampleItem.modelDump false))] sampleItem 1 none).dir "1.md"
      = none ∧
    (dirLookup (FileStorage.save { defaultFormat := "json", nextId := 2 }
        [("1.md", FileData.mdData (sampleItem.modelDump false))] sampleItem 1 none).dir
        "1.json").isSome = true :=
  ⟨rfl, rfl, rfl⟩

/-- C2.  Corrected: ID-based operations consult only the exact filenames
`{id}.json`, `{id}.xml`, `{id}.md`; when none of those exist, lookup finds
nothing, `load` returns `None`, `delete` returns `False` and changes
nothing, and `load_all` skips every file whose full stem is not all
digits (a friendly-named file among them). -/
theorem c2_exact_names_only (dir : Dir) (i : Int)
    (h : ∀ ext ∈ supportedExts, dirLookup dir (entityFileName i ext) = none) :
    findEntityFile dir i = none ∧
    FileStorage.load dir i = .ok none ∧
    FileStorage.delete dir i = (false, dir) ∧
    ∀ nm fd, pyIsDigit (pyStem nm) = false → FileStorage.loadAll [(nm, fd)] = [] := by
  have hfind := findEntityFile_none h
  refine ⟨hfind, ?_, ?_, ?_⟩
  · unfold FileStorage.load
    rw [hfind]
  · unfold FileStorage.delete
    rw [hfind]
  · intro nm fd hstem
    unfold FileStorage.loadAll loadAllEntities
    cases hu : startsWithUnderscore nm with
    | true => simp [loadAllEntities.go, hu, sortById]
    | false => simp [loadAllEntities.go, hu, hstem, sortById]

/-- C2 witness: a document stored only at the friendly name
`7.acme-invoice.json` is not loaded by `id=7`. -/
theorem c2_exact_names_only_witness :
    FileStorage.load [("7.acme-invoice.json", FileData.jsonData (sampleItem.modelDump false))] 7
      = .ok none :=
  (c2_exact_names_only
    [("7.acme-invoice.json", FileData.jsonData (sampleItem.modelDump false))] 7
    (by
      intro ext hext
      simp only [supportedExts, List.mem_cons, List.not_mem_nil, or_false] at hext
      rcases hext with rfl | rfl | rfl <;> rfl)).2.1

/-- C2 counterexample: a document saved at `7.acme-invoice.json` is invisible
to every ID-based operation: lookup finds nothing, `load(7)` returns `None`,
`delete(7)` returns `False` and removes nothing, `load_all` omits it, and
`save(entity, 7)` writes a second file `7.json` instead of updating it in
place. -/
theorem c2_counterexample_friendly_name_invisible :
    findEntityFile [("7.acme-invoice.json", FileData.jsonData (sampleItem.modelDump false))] 7
      = none ∧
    FileStorage.load [("7.acme-invoice.json", FileData.jsonData (sampleItem.modelDump false))] 7
      = .ok none ∧
    FileStorage.delete [("7.acme-invoice.json", FileData.jsonData (sampleItem.modelDump false))] 7
      = (false, [("7.acme-invoice.json", FileData.jsonData (sampleItem.modelDump false))]) ∧
    FileStorage.loadAll [("7.acme-invoice.json", FileData.jsonData (sampleItem.modelDump false))]
      = [] ∧
    (FileStorage.save { defaultFormat := "json", nextId := 8 }
        [("7.acme-invoice.json", FileData.jsonData (sampleItem.modelDump false))]
        sampleItem 7 none).dir
      = [("7.acme-invoice.json", FileData.jsonData (sampleItem.modelDump false)),
         ("7.json", FileData.jsonData (sampleItem.modelDump false))] :=
  ⟨rfl, rfl, rfl, rfl, rfl⟩

/-- C3.  Confirmed: any schedule of sessions over one directory (each
session reopens the store, i.e. constructs a fresh `FileStorage` over the
directory as the previous session left it, then calls `get_next_id` its
number of times) yields exactly the integers `1, 2, ..., N` in order with no
repeats, where `N` is the total number of calls; and each single call
returns the current counter having already persisted the incremented counter
to the metadata file. -/
theorem c3_get_next_id_sequence (sched : List Nat) (st : FileStorage) (dir : Dir) :
    (∃ dir2, runSessions "json" [] sched = .ok (intRange 1 sched.sum, dir2) ∧
      loadMeta dir2 = .ok (1 + (sched.sum : Int))) ∧
    (intRange 1 sched.sum).Nodup ∧
    (FileStorage.getNextId st dir).1 = st.nextId ∧
    loadMeta (FileStorage.getNextId st dir).2.2 = .ok (st.nextId + 1) := by
  refine ⟨runSessions_spec sched [] 1 rfl, intRange_nodup 1 sched.sum, rfl, ?_⟩
  exact loadMeta_saveMeta { st with nextId := st.nextId + 1 } dir

/-- C4.  Corrected: corrupt ID-counter metadata is indeed swallowed (the
counter restarts at 1), and a direct `load(id)` of a corrupt entity file
does raise; but `load_all` also swallows, silently skipping every file whose
load raises, a corrupt entity document included. -/
theorem c4_error_swallowing :
    loadMeta [(metaFileName, FileData.corruptText)] = .ok 1 ∧
    (∀ (dir : Dir) (i : Int) (nm : String),
      findEntityFile dir i = some (nm, FileData.corruptText) →
      ∃ err, FileStorage.load dir i = .error err) ∧
    ∀ nm : String, FileStorage.loadAll [(nm, FileData.corruptText)] = [] := by
  refine ⟨rfl, ?_, ?_⟩
  · intro dir i nm hfind
    obtain ⟨ext, hmem, hnm, hlook⟩ := findEntityFile_some hfind
    subst hnm
    rw [load_of_find hfind]
    unfold loadFound
    simp only [supportedExts, List.mem_cons, List.not_mem_nil, or_false] at hmem
    rcases hmem with rfl | rfl | rfl
    · rw [lstripDots_pySuffix_entityFileName i (by decide) (by decide)]
      exact ⟨PyErr.jsonDecodeError, rfl⟩
    · rw [lstripDots_pySuffix_entityFileName i (by decide) (by decide)]
      exact ⟨PyErr.xmlParseError, rfl⟩
    · rw [lstripDots_pySuffix_entityFileName i (by decide) (by decide)]
      exact ⟨PyErr.valueError ("Invalid markdown format in " ++ entityFileName i "md"), rfl⟩
  · intro nm
    unfold FileStorage.loadAll loadAllEntities
    cases hu : startsWithUnderscore nm with
    | true => simp [loadAllEntities.go, hu, sortById]
    | false =>
      cases hd : pyIsDigit (pyStem nm) with
      | false => simp [loadAllEntities.go, hu, hd, sortById]
      | true =>
        simp only [loadAllEntities.go, hu, hd, Bool.false_eq_true, if_false, if_true]
        cases hres : FileStorage.load [(nm, FileData.corruptText)] (pyIntOfDigits (pyStem nm)) with
        | error err => simp [loadAllEntities.go, sortById]
        | ok oi =>
          cases oi with
          | none => simp [loadAllEntities.go, sortById]
          | some e => exact absurd hres (load_corrupt_single nm _ e)

/-- C4 witness: a corrupt `1.json` raises on direct load. -/
theorem c4_error_swallowing_witness :
    ∃ err, FileStorage.load [("1.json", FileData.corruptText)] 1 = .error err :=
  c4_error_swallowing.2.1 [("1.json", FileData.corruptText)] 1 "1.json" rfl

/-- C4 counterexample: the very same corrupt entity document that raises
under a direct `load(1)` is silently skipped by `load_all`, which completes
normally with an empty result instead of surfacing the error. -/
theorem c4_counterexample_load_all_swallows :
    FileStorage.load [("1.json", FileData.corruptText)] 1 = .error PyErr.jsonDecodeError ∧
    FileStorage.loadAll [("1.json", FileData.corruptText)] = [] :=
  ⟨rfl, rfl⟩

/-- C5.  Code bug: the code has no YAML path at all.  `save` with
`fmt="yaml"` raises the generic `ValueError("Unsupported format: yaml")` —
not the missing-optional-dependency `ImportError` the spec and the
repository's own tests require — and it does so after already deleting a
differently-formatted existing document for that ID; `_find_entity_file`
never probes a `.yaml` name, so a `3.yaml` document is never found. -/
theorem c5_yaml_generic_failure :
    (FileStorage.save { defaultFormat := "json", nextId := 4 } [] sampleItem 3
        (some "yaml")).result
      = .error (.valueError "Unsupported format: yaml") ∧
    findEntityFile [("3.yaml", FileData.jsonData (sampleItem.modelDump false))] 3 = none ∧
    (FileStorage.save { defaultFormat := "json", nextId := 4 }
        [(entityFileName 3 "json", FileData.jsonData (sampleItem.modelDump false))]
        sampleItem 3 (some "yaml")).result
      = .error (.valueError "Unsupported format: yaml") ∧
    (FileStorage.save { defaultFormat := "json", nextId := 4 }
        [(entityFileName 3 "json", FileData.jsonData (sampleItem.modelDump false))]
        sampleItem 3 (some "yaml")).dir
      = [] :=
  ⟨rfl, rfl, rfl, rfl⟩

/-- C6.  Corrected: the round trip holds for the formats the code actually
supports, `F ∈ {json, md, xml}` — for `json` on all fields including an
absent optional, for `md` whenever the dumped JSON contains no `---`
delimiter, for `xml` for XML-round-trippable entities (`xmlSafe` plus text
free of control characters and `\r`, which expat would reject or
normalize); a dump that does not serialize to well-formed XML makes the
`xml` save raise `ExpatError` instead — while `yaml` is not a supported
format at all. -/
theorem c6_roundtrip_supported_formats (st : FileStorage) (e : ItemModel) (i : Int) :
    FileStorage.load (FileStorage.save st [] e i (some "json")).dir i = .ok (some e) ∧
    (jsonHasTripleDash (e.modelDump false) = false →
      FileStorage.load (FileStorage.save st [] e i (some "md")).dir i = .ok (some e)) ∧
    (xmlRoundSafe e →
      FileStorage.load (FileStorage.save st [] e i (some "xml")).dir i = .ok (some e)) ∧
    ((buildXmlDoc (e.modelDump true)).serializable = false →
      (FileStorage.save st [] e i (some "xml")).result = .error PyErr.expatError) := by
  refine ⟨?_, ?_, ?_, ?_⟩
  · rw [save_empty_json]
    exact load_single_json e i
  · intro h
    rw [save_empty_md]
    exact load_single_md e i h
  · intro h
    rw [save_empty_xml st e i (serializable_of_roundSafe e h),
      normCR_of_roundSafe e h]
    exact load_single_xml e i h.1
  · intro h
    rw [save_empty_xml_fails st e i h]

/-- C6 witness: the XML round trip at a concrete fully-populated entity. -/
theorem c6_roundtrip_supported_formats_witness :
    FileStorage.load
        (FileStorage.save { defaultFormat := "json", nextId := 1 } [] sampleRound 7
          (some "xml")).dir 7
      = .ok (some sampleRound) :=
  (c6_roundtrip_supported_formats { defaultFormat := "json", nextId := 1 } sampleRound 7).2.2.1
    ⟨⟨by decide, by decide, by decide, by decide, by decide⟩,
     by decide, by decide, by decide, by decide⟩

/-- C6 counterexample: `yaml` belongs to the spec's format set but nothing
can be saved in it — the save raises the generic unsupported-format
`ValueError` and afterwards nothing loads back for the ID — so the claimed
round trip over `F ∈ {json, xml, md, yaml}` fails at `yaml`. -/
theorem c6_counterexample_yaml_no_roundtrip :
    (FileStorage.save { defaultFormat := "json", nextId := 8 } [] sampleRound 7
        (some "yaml")).result
      = .error (.valueError "Unsupported format: yaml") ∧
    FileStorage.load
        (FileStorage.save { defaultFormat := "json", nextId := 8 } [] sampleRound 7
          (some "yaml")).dir 7
      = .ok none :=
  ⟨rfl, rfl⟩

/-- C7.  Confirmed: for both backends `get_all(skip, limit)` is the
ascending-by-ID slice `[skip, skip+limit)` of the stored entities, an
out-of-range `skip` yields the empty sequence without failing, and after
three creations `get_all(1, 1)` is exactly the second-created entity. -/
theorem c7_get_all_pagination :
    (∀ (dir : Dir) (skip limit : Nat),
      FileRepo.getAll dir skip limit = ((FileStorage.loadAll dir).drop skip).take limit ∧
      List.Pairwise (fun a b => a.id ≤ b.id) (FileRepo.getAll dir skip limit) ∧
      ((FileStorage.loadAll dir).length ≤ skip → FileRepo.getAll dir skip limit = [])) ∧
    (∀ (ops : List MemOp) (skip limit : Nat),
      List.Pairwise (fun a b => a.id ≤ b.id) ((MemoryRepo.fresh.runOps ops).getAll skip limit) ∧
      ((MemoryRepo.fresh.runOps ops).storage.length ≤ skip →
        (MemoryRepo.fresh.runOps ops).getAll skip limit = [])) ∧
    FileRepo.getAll fileStep3.2.2 1 1 = [sampleCreateB.withId 2] ∧
    memStep3.getAll 1 1 = [sampleCreateB.withId 2] := by
  refine ⟨?_, ?_, rfl, rfl⟩
  · intro dir skip limit
    refine ⟨rfl, pairwise_slice skip limit (pairwise_sortById _), ?_⟩
    intro hlen
    unfold FileRepo.getAll
    rw [List.drop_eq_nil_of_le hlen, List.take_nil]
  · intro ops skip limit
    have hinv := memInv_runOps ops MemoryRepo.fresh memInv_fresh
    refine ⟨memGetAll_pairwise hinv skip limit, ?_⟩
    intro hlen
    unfold MemoryRepo.getAll
    have hlen2 : ((MemoryRepo.fresh.runOps ops).storage.map Prod.snd).length ≤ skip := by
      rw [List.length_map]
      exact hlen
    rw [List.drop_eq_nil_of_le hlen2, List.take_nil]

/-- C7 witness: an out-of-range skip on an empty store returns the empty
sequence. -/
theorem c7_get_all_pagination_witness : FileRepo.getAll [] 5 2 = [] :=
  (c7_get_all_pagination.1 [] 5 2).2.2 (by decide)

/-- C8.  Confirmed: once lazy self-registration has run, an unregistered
backend name makes construction fail with the unknown-backend error naming
the backend and listing the available names, with no plugin constructed or
initialized; a registered name constructs exactly one plugin and calls its
initialization immediately. -/
theorem c8_factory_unknown_backend (flag : Bool) (importable : List PluginClass)
    (reg reg1 : Registry) (backend : String) (c : PluginClass)
    (hens : ensureBackendsRegistered flag importable reg = .ok reg1) :
    (registryGet reg1 backend = none →
      RepositoryFactory.construct flag importable reg backend
        = (.error (.unknownBackend { backend := backend, available := registryList reg1 }),
           []) ∧
      UnknownBackendError.message { backend := backend, available := registryList reg1 }
        = "Unknown backend " ++ sq ++ backend ++ sq ++ ". Available backends: "
          ++ (if (registryList reg1).isEmpty then "none"
              else String.intercalate ", " (registryList reg1))) ∧
    (registryGet reg1 backend = some c →
      RepositoryFactory.construct flag importable reg backend
        = (.ok { plugin := c },
           [.pluginConstructed c.clsName, .pluginInitCalled c.clsName])) := by
  have hcr := construct_resolved hens backend
  constructor
  · intro hget
    constructor
    · rw [hcr, hget]
    · rfl
  · intro hget
    rw [hcr, hget]

/-- C8 witness: with only the memory backend registered, requesting
`sqlite` fails naming it and listing `memory`, with no plugin events; and
requesting `memory` constructs and initializes the plugin immediately. -/
theorem c8_factory_unknown_backend_witness :
    RepositoryFactory.construct true [] [("memory", memoryPluginClass)] "sqlite"
      = (.error (.unknownBackend { backend := "sqlite", available := ["memory"] }), []) ∧
    RepositoryFactory.construct true [] [("memory", memoryPluginClass)] "memory"
      = (.ok { plugin := memoryPluginClass },
         [.pluginConstructed "MemoryPlugin", .pluginInitCalled "MemoryPlugin"]) :=
  ⟨((c8_factory_unknown_backend true [] [("memory", memoryPluginClass)]
      [("memory", memoryPluginClass)] "sqlite" memoryPluginClass rfl).1 rfl).1,
   (c8_factory_unknown_backend true [] [("memory", memoryPluginClass)]
      [("memory", memoryPluginClass)] "memory" memoryPluginClass rfl).2 rfl⟩

/-- C9.  Confirmed: registering a plugin whose name is present raises the
duplicate error and leaves the registry unchanged (the existing binding
kept); registering a fresh name appends exactly that binding, which then
resolves, and every other name resolves as before. -/
theorem c9_register_duplicate (reg : Registry) (c : PluginClass) :
    ((registryGet reg c.pname).isSome = true →
      registerPlugin reg c
        = (reg, some ("Plugin " ++ sq ++ c.pname ++ sq
            ++ " is already registered. Cannot register " ++ c.clsName ++ "."))) ∧
    (registryGet reg c.pname = none →
      registerPlugin reg c = (reg ++ [(c.pname, c)], none) ∧
      registryGet (reg ++ [(c.pname, c)]) c.pname = some c ∧
      ∀ n, n ≠ c.pname → registryGet (reg ++ [(c.pname, c)]) n = registryGet reg n) := by
  constructor
  · intro h
    unfold registerPlugin
    rw [if_pos h]
  · intro h
    have hnot : ¬((registryGet reg c.pname).isSome = true) := by
      rw [h]
      simp
    refine ⟨?_, ?_, ?_⟩
    · unfold registerPlugin
      rw [if_neg hnot]
    · rw [registryGet_append, h]
      simp
    · intro n hn
      rw [registryGet_append]
      cases hg : registryGet reg n with
      | some c0 => rfl
      | none =>
        rw [if_neg (fun hh => hn hh.symm)]

/-- C9 witness: re-registering the memory plugin class errors with the
duplicate message and keeps the registry as it was. -/
theorem c9_register_duplicate_witness :
    registerPlugin [("memory", memoryPluginClass)] memoryPluginClass
      = ([("memory", memoryPluginClass)],
         some ("Plugin " ++ sq ++ "memory" ++ sq
           ++ " is already registered. Cannot register MemoryPlugin.")) :=
  (c9_register_duplicate [("memory", memoryPluginClass)] memoryPluginClass).1 (by decide)

/-- C10.  Confirmed: after `cleanup()`, every repository slot the plugin
held has its storage erased — `get_by_id` is absent for every ID and
`get_all` is empty — the audit log is cleared, `cleanup` is idempotent, and
on a plugin that was never initialized it is a no-op. -/
theorem c10_cleanup_erases (p : MemoryPlugin) (r : MemoryRepo) (i : Int) (skip limit : Nat) :
    (p.clientRepo = some r →
      p.cleanup.clientRepo = some r.clearStorage ∧
      r.clearStorage.getById i = none ∧
      r.clearStorage.getAll skip limit = []) ∧
    (p.invoiceRepo = some r → p.cleanup.invoiceRepo = some r.clearStorage) ∧
    (p.paymentRepo = some r → p.cleanup.paymentRepo = some r.clearStorage) ∧
    (p.companyRepo = some r → p.cleanup.companyRepo = some r.clearStorage) ∧
    (p.productRepo = some r → p.cleanup.productRepo = some r.clearStorage) ∧
    (p.paymentNoteRepo = some r → p.cleanup.paymentNoteRepo = some r.clearStorage) ∧
    (p.auditLogs.isSome = true → p.cleanup.auditLogs = some []) ∧
    p.cleanup.cleanup = p.cleanup ∧
    MemoryPlugin.new.cleanup = MemoryPlugin.new := by
  refine ⟨?_, ?_, ?_, ?_, ?_, ?_, ?_, ?_, rfl⟩
  · intro h
    refine ⟨by simp [MemoryPlugin.cleanup, h], rfl, ?_⟩
    simp [MemoryRepo.getAll, MemoryRepo.clearStorage]
  · intro h
    simp [MemoryPlugin.cleanup, h]
  · intro h
    simp [MemoryPlugin.cleanup, h]
  · intro h
    simp [MemoryPlugin.cleanup, h]
  · intro h
    simp [MemoryPlugin.cleanup, h]
  · intro h
    simp [MemoryPlugin.cleanup, h]
  · intro h
    cases ha : p.auditLogs with
    | none =>
      rw [ha] at h
      simp at h
    | some l => simp [MemoryPlugin.cleanup, ha]
  · have hc : ∀ o : Option MemoryRepo,
        Option.map MemoryRepo.clearStorage (Option.map MemoryRepo.clearStorage o)
          = Option.map MemoryRepo.clearStorage o := by
      intro o
      cases o <;> rfl
    have ha2 : ∀ o : Option (List JsonVal),
        Option.map (fun _ => ([] : List JsonVal))
            (Option.map (fun _ => ([] : List JsonVal)) o)
          = Option.map (fun _ => ([] : List JsonVal)) o := by
      intro o
      cases o <;> rfl
    obtain ⟨f1, f2, f3, f4, f5, f6, f7⟩ := p
    simp [MemoryPlugin.cleanup, hc, ha2]

/-- C10 witness: on the concrete initialized plugin, cleanup leaves the
client slot holding the cleared repository. -/
theorem c10_cleanup_erases_witness :
    MemoryPlugin.new.initRepos.cleanup.clientRepo = some MemoryRepo.fresh.clearStorage :=
  ((c10_cleanup_erases MemoryPlugin.new.initRepos MemoryRepo.fresh 1 0 5).1 rfl).1

end PyInvoices
